import Mathlib

/-!
# Ordered scatter-gather (`ordered.go`)

A shallow embedding of the ordered scatter-gather pipeline of `ordered.go`
and the properties of its sequence admission, reorder stage and shutdown.

* Go `uint64` values are natural numbers; every arithmetic step of the source
  that can overflow (`lastIndex.Add(1)`, `awaitingIndex++`) is taken modulo `2 ^ 64`.
* The Go map `map[uint64]workItemResult[R]` is an association list with at most
  one entry per key (`mapGet`, `mapSet`, `mapDelete`).
* Goroutines are modelled by the functions they run; a channel hand-off is a
  function call, and the order in which workers hand their results to
  `gatherChan` is an explicit list, so that a statement over all such lists is a
  statement over all completion orders.
* Both queues hold `interface{}` payloads. `pickWork` asserts `item.(workItem[R])`, a struct
  type, which holds for everything `AddWork` pushes. `relayResults` asserts `result.(R)`,
  which panics when the payload is the nil interface value, and that is what a nil result of
  an interface type `R` becomes in the queue (`GoResult.nilInterface`).
-/

namespace OrderedScatterGather

/-- Number of values of a Go `uint64`. -/
def uint64Size : Nat := 2 ^ 64

/-- Go: `type workItem[R any] struct { index uint64; f func() R }`. -/
structure workItem (R : Type) where
  index : Nat
  f : Unit → R

/-- Go: `type workItemResult[R any] struct { index uint64; result R }`. -/
structure workItemResult (R : Type) where
  index : Nat
  result : R
  deriving DecidableEq, Repr

/-- Go: what a value of the result type `R` becomes when it is stored in an `interface{}`, as
`outputQueue.Push(ctx, bufferedItem.result)` does. `nilInterface v` says that it becomes the
nil interface value: so it is for `v = nil` when `R` is itself an interface type (such as
`error`), and never for a concrete `R` (such as `int`). The type assertion `x.(R)` panics
on the nil interface value and on no other value that was stored from an `R`. -/
class GoResult (R : Type) where
  nilInterface : R → Bool

/-- Go: `int`, a concrete type: no value of it is stored as the nil interface value. -/
instance goResultNat : GoResult Nat where
  nilInterface := fun _ => false

/-- Go: the values of the interface type `error`: `nil`, or an error (told apart by a code). -/
inductive GoError where
  | nil
  | failure (code : Nat)
  deriving DecidableEq, Repr

/-- Go: `error` is an interface type: its `nil` is stored as the nil interface value. -/
instance goResultGoError : GoResult GoError where
  nilInterface := fun e => decide (e = GoError.nil)

/-- How the run of a goroutine or of a call ends: it ends in a state, a goroutine panics (which
ends the program), or it never ends (it blocks for good, or the fuel of the model ran out). -/
inductive Outcome (α : Type) where
  | ok (a : α)
  | panic
  | hang
  deriving DecidableEq, Repr

/-- The outcome with `f` applied to the final state. -/
def Outcome.map {α β : Type} (f : α → β) : Outcome α → Outcome β
  | Outcome.ok a => Outcome.ok (f a)
  | Outcome.panic => Outcome.panic
  | Outcome.hang => Outcome.hang

/-! ## The queue collaborator -/

/-- Modelled from the spec: the bounded blocking queue `bloque.Bloque` is an external
package whose source is not in the repository. Section 6 of the specification gives
its contract: a FIFO of payloads with a capacity (`0` is unbounded) and a closed flag. -/
structure Bloque (α : Type) where
  items : List α
  capacity : Nat
  closed : Bool
  deriving DecidableEq, Repr

/-- Outcome of `Push`: it returned `nil` (with the new queue), it returned an error, or it
is still waiting for room. -/
inductive PushResult (α : Type) where
  | pushed (q : Bloque α)
  | failed
  | blocks
  deriving DecidableEq, Repr

/-- Outcome of `Pop`: it returned an item (with the new queue), it returned an error, or it
is still waiting for an item. -/
inductive PopResult (α : Type) where
  | popped (item : α) (q : Bloque α)
  | failed
  | blocks
  deriving DecidableEq, Repr

/-- Modelled from the spec: `bloque.New(bloque.WithCapacity(capacity))`, an empty open queue. -/
def Bloque.New {α : Type} (capacity : Nat) : Bloque α :=
  { items := [], capacity := capacity, closed := false }

/-- The queue holds as many items as its capacity allows (never so when unbounded). -/
def Bloque.full {α : Type} (q : Bloque α) : Bool :=
  q.capacity != 0 && decide (q.capacity ≤ q.items.length)

/-- Modelled from the spec: `Push(cancelSignal, item)` "blocks if at capacity, fails if closed
or cancelled". `ctxDone` says that the cancellation signal has fired (before the call or while
it waits). -/
def Bloque.Push {α : Type} (ctxDone : Bool) (q : Bloque α) (item : α) : PushResult α :=
  if q.closed || ctxDone then PushResult.failed
  else if q.full then PushResult.blocks
  else PushResult.pushed { q with items := q.items ++ [item] }

/-- Modelled from the spec: `Pop(cancelSignal)` "blocks if empty and open; returns an
end-of-stream error only once closed and empty". Buffered items stay poppable after `Close`. -/
def Bloque.Pop {α : Type} (ctxDone : Bool) (q : Bloque α) : PopResult α :=
  match q.items with
  | item :: rest => PopResult.popped item { q with items := rest }
  | [] => if q.closed || ctxDone then PopResult.failed else PopResult.blocks

/-- Modelled from the spec: `Close()` stops future pushes and keeps the buffered items. -/
def Bloque.Close {α : Type} (q : Bloque α) : Bloque α :=
  { q with closed := true }

/-! ## The Go map of the reorder stage -/

/-- Go: `v, ok := m[k]`. -/
def mapGet {V : Type} : List (Nat × V) → Nat → Option V
  | [], _ => none
  | (k', v) :: rest, k => if k' = k then some v else mapGet rest k

/-- Go: `delete(m, k)`. -/
def mapDelete {V : Type} (m : List (Nat × V)) (k : Nat) : List (Nat × V) :=
  m.filter (fun e => decide (e.1 ≠ k))

/-- Go: `m[k] = v`. -/
def mapSet {V : Type} (m : List (Nat × V)) (k : Nat) (v : V) : List (Nat × V) :=
  (k, v) :: mapDelete m k

/-! ## The gatherer -/

/-- State of an `OrderedScatterGatherer[R]`.

`workQueue`, `outputQueue` and `lastIndex` are the fields of the Go struct.
`resultsChan` is the list of values the consumer has received from `OutputChannel()`,
oldest first. `bufferedItems` and `awaitingIndex` are the local variables of the
`gatherWork` goroutine, which is started by the constructor and lives as long as the
gatherer. `released` is a history variable and no program state: the buffered items whose
`result` the output queue accepted, in the order of the accepting `Push` calls. -/
structure OrderedScatterGatherer (R : Type) where
  workQueue : Bloque (workItem R)
  outputQueue : Bloque R
  lastIndex : Nat
  resultsChan : List R
  bufferedItems : List (Nat × workItemResult R)
  awaitingIndex : Nat
  released : List (workItemResult R)

/-- Go: `NewOrderedScatterGather(workers, maxInputBacklog, maxOutputBacklog)`. `lastIndex` is
the zero value of `atomic.Uint64`; `gatherWork` starts with an empty map and
`awaitingIndex := uint64(1)`. The number of workers only limits how far the completion
order can differ from the dispatch order; the completion order is an explicit argument
wherever it matters. -/
def NewOrderedScatterGather {R : Type} (_workers maxInputBacklog maxOutputBacklog : Nat) :
    OrderedScatterGatherer R :=
  { workQueue := Bloque.New maxInputBacklog
    outputQueue := Bloque.New maxOutputBacklog
    lastIndex := 0
    resultsChan := []
    bufferedItems := []
    awaitingIndex := 1
    released := [] }

/-- Go: `OutputChannel()`; the values read from the channel so far. -/
def OutputChannel {R : Type} (sg : OrderedScatterGatherer R) : List R :=
  sg.resultsChan

/-- How a call to `AddWork` stands: it returned `nil`, it returned an error, or it is still
blocked in `Push`. -/
inductive CallStatus where
  | returnedNil
  | returnedErr
  | blocked
  deriving DecidableEq, Repr

/-- What a call to `AddWork` leaves behind: the gatherer, the work item it built and how the
call stands. -/
structure AddWorkResult (R : Type) where
  sg : OrderedScatterGatherer R
  item : workItem R
  err : CallStatus

/-- Go: `AddWork(ctx, f)`: `index := sg.lastIndex.Add(1)` and then
`return sg.workQueue.Push(ctx, workItem[R]{index: index, f: f})`. -/
def AddWork {R : Type} (ctxDone : Bool) (f : Unit → R) (sg : OrderedScatterGatherer R) :
    AddWorkResult R :=
  let index := (sg.lastIndex + 1) % uint64Size
  let item : workItem R := { index := index, f := f }
  let sg1 := { sg with lastIndex := index }
  match sg1.workQueue.Push ctxDone item with
  | PushResult.pushed q => { sg := { sg1 with workQueue := q }, item := item, err := CallStatus.returnedNil }
  | PushResult.failed => { sg := sg1, item := item, err := CallStatus.returnedErr }
  | PushResult.blocks => { sg := sg1, item := item, err := CallStatus.blocked }

/-- A run of calls to `AddWork`, one after the other, each with its own cancellation flag and
computation; returns the last gatherer and what every call left behind, in call order. -/
def AddWorkCalls {R : Type} :
    List (Bool × (Unit → R)) → OrderedScatterGatherer R →
      OrderedScatterGatherer R × List (AddWorkResult R)
  | [], sg => (sg, [])
  | (ctxDone, f) :: rest, sg =>
    let r := AddWork ctxDone f sg
    let out := AddWorkCalls rest r.sg
    (out.1, r :: out.2)

/-- Go: the body of the `doWork` loop: `r := item.f()` and the hand-off of
`workItemResult[R]{index: item.index, result: r}` to `gatherChan`. -/
def doWork {R : Type} (item : workItem R) : workItemResult R :=
  { index := item.index, result := item.f () }

/-- Go: one iteration of the `pickWork` loop whose `Pop` returned an item: the item handed to
`scatterChan` and the gatherer after the `Pop`. -/
def pickWorkStep {R : Type} (ctxDone : Bool) (sg : OrderedScatterGatherer R) :
    Option (workItem R × OrderedScatterGatherer R) :=
  match sg.workQueue.Pop ctxDone with
  | PopResult.popped item q => some (item, { sg with workQueue := q })
  | _ => none

/-- Go: `pickWork(ctx)` run until `Pop` returns an error: the items handed to `scatterChan`,
in order. `none` when the fuel runs out or `Pop` blocks for good. -/
def pickWork {R : Type} (ctxDone : Bool) :
    Nat → OrderedScatterGatherer R → Option (List (workItem R) × OrderedScatterGatherer R)
  | 0, _ => none
  | fuel + 1, sg =>
    match sg.workQueue.Pop ctxDone with
    | PopResult.popped item q =>
      (pickWork ctxDone fuel { sg with workQueue := q }).map (fun out => (item :: out.1, out.2))
    | PopResult.failed => some ([], sg)
    | PopResult.blocks => none

/-- What one iteration of the `relayResults` loop does: it hands a value to the consumer, it
panics, or its `Pop` returns no value. -/
inductive RelayStep (R : Type) where
  | forwarded (sg : OrderedScatterGatherer R)
  | panics
  | idle

/-- Go: one iteration of the `relayResults` loop: `result, err := sg.outputQueue.Pop(ctx)` and,
when a value was popped, `sg.resultsChan <- result.(R)`. The type assertion panics when the
popped value is the nil interface value; otherwise the consumer receives the value. -/
def relayStep {R : Type} [GoResult R] (ctxDone : Bool) (sg : OrderedScatterGatherer R) :
    RelayStep R :=
  match sg.outputQueue.Pop ctxDone with
  | PopResult.popped result q =>
    if GoResult.nilInterface result then RelayStep.panics
    else RelayStep.forwarded
      { sg with outputQueue := q, resultsChan := sg.resultsChan ++ [result] }
  | _ => RelayStep.idle

/-- At most `n` iterations of the `relayResults` loop; `none` when one of them panics. -/
def relayN {R : Type} [GoResult R] (ctxDone : Bool) :
    Nat → OrderedScatterGatherer R → Option (OrderedScatterGatherer R)
  | 0, sg => some sg
  | n + 1, sg =>
    match relayStep ctxDone sg with
    | RelayStep.forwarded sg1 => relayN ctxDone n sg1
    | RelayStep.panics => none
    | RelayStep.idle => some sg

/-- Go: `relayResults(ctx)` run until `Pop` returns an error: it ends then, unless the type
assertion `result.(R)` panics before. `hang` when the fuel runs out or `Pop` blocks for
good. -/
def relayResults {R : Type} [GoResult R] (ctxDone : Bool) :
    Nat → OrderedScatterGatherer R → Outcome (OrderedScatterGatherer R)
  | 0, _ => Outcome.hang
  | fuel + 1, sg =>
    match sg.outputQueue.Pop ctxDone with
    | PopResult.popped result q =>
      if GoResult.nilInterface result then Outcome.panic
      else relayResults ctxDone fuel
        { sg with outputQueue := q, resultsChan := sg.resultsChan ++ [result] }
    | PopResult.failed => Outcome.ok sg
    | PopResult.blocks => Outcome.hang

/-- Go: `err := sg.outputQueue.Push(ctx, bufferedItem.result)` in `gatherWork`; `some` is the
gatherer once `Push` has returned `nil`. A `Push` that finds the queue full waits: the only
party that makes room is `relayResults`, which pops the oldest values and hands them to the
consumer, after which the `Push` goes through. `none`: the `Push` does not return `nil`. It
returns an error; or the relay panics while the `Push` waits for room, which ends the
program with the reorder stage still in this `Push`. -/
def pushOutput {R : Type} [GoResult R] (ctxDone : Bool) (sg : OrderedScatterGatherer R)
    (result : R) : Option (OrderedScatterGatherer R) :=
  match sg.outputQueue.Push ctxDone result with
  | PushResult.pushed q => some { sg with outputQueue := q }
  | PushResult.failed => none
  | PushResult.blocks =>
    match relayN ctxDone (sg.outputQueue.items.length + 1 - sg.outputQueue.capacity) sg with
    | some sg1 =>
      match sg1.outputQueue.Push ctxDone result with
      | PushResult.pushed q => some { sg1 with outputQueue := q }
      | _ => none
    | none => none

/-- Go: the inner `for` loop of `gatherWork`. It stops when `awaitingIndex` is not in the map
and when the push does not return `nil` (`if err != nil { break }`, or the program has ended
in that push: the stage gets no further either way). `none` when the fuel runs out. -/
def releaseLoop {R : Type} [GoResult R] (ctxDone : Bool) :
    Nat → OrderedScatterGatherer R → Option (OrderedScatterGatherer R)
  | 0, _ => none
  | fuel + 1, sg =>
    match mapGet sg.bufferedItems sg.awaitingIndex with
    | none => some sg
    | some bufferedItem =>
      match pushOutput ctxDone sg bufferedItem.result with
      | none => some sg
      | some sg1 =>
        releaseLoop ctxDone fuel
          { sg1 with
            bufferedItems := mapDelete sg1.bufferedItems sg1.awaitingIndex
            awaitingIndex := (sg1.awaitingIndex + 1) % uint64Size
            released := sg1.released ++ [bufferedItem] }

/-- Go: one iteration of `for result := range sg.gatherChan` in `gatherWork`:
`bufferedItems[result.index] = result` and then the inner loop. Every turn of the inner loop
that goes on deletes an entry, so one more turn than there are entries is enough fuel. -/
def gatherReceive {R : Type} [GoResult R] (ctxDone : Bool) (sg : OrderedScatterGatherer R)
    (result : workItemResult R) : Option (OrderedScatterGatherer R) :=
  let sg1 := { sg with bufferedItems := mapSet sg.bufferedItems result.index result }
  releaseLoop ctxDone (sg1.bufferedItems.length + 1) sg1

/-- Go: `gatherWork(ctx)` receiving the given results from `gatherChan`, in that order. The
states it goes through include every state the reorder stage is in while the program runs;
should the relay panic while a push waits, the program has ended there, and the states
after it show no further release (the queue stays full and the relay panics again). -/
def gatherWork {R : Type} [GoResult R] (ctxDone : Bool) :
    List (workItemResult R) → OrderedScatterGatherer R → Option (OrderedScatterGatherer R)
  | [], sg => some sg
  | result :: rest, sg => (gatherReceive ctxDone sg result).bind (gatherWork ctxDone rest)

/-- Go: one item taken through the pipeline: `pickWork` pops it, a worker runs it and
`gatherWork` receives its result. -/
def processOne {R : Type} [GoResult R] (sg : OrderedScatterGatherer R) :
    Option (OrderedScatterGatherer R) :=
  (pickWorkStep false sg).bind (fun p => gatherReceive false p.2 (doWork p.1))

/-- Go: `Drain()`. The context handed to the three stages is never cancelled
(`relayCTXCancel` is stored and never called), so their cancellation flag is `false`.
`completion` is the order in which the workers hand the results of the remaining items to
`gatherChan`. The steps: `workQueue.Close()`; `pickWork` pops what is left and ends;
the workers run the items and end; `gatherWork` receives their results and ends;
`outputQueue.Close()`; `relayResults` hands what is left to the consumer and ends.
`ok` is the state in which `Drain` returns; `panic` when the relay panics on the way. -/
def Drain {R : Type} [GoResult R]
    (completion : List (workItemResult R) → List (workItemResult R))
    (sg : OrderedScatterGatherer R) : Outcome (OrderedScatterGatherer R) :=
  let sg1 := { sg with workQueue := sg.workQueue.Close }
  match pickWork false (sg1.workQueue.items.length + 1) sg1 with
  | none => Outcome.hang
  | some picked =>
    match gatherWork false (completion (picked.1.map doWork)) picked.2 with
    | none => Outcome.hang
    | some sg2 =>
      let sg3 := { sg2 with outputQueue := sg2.outputQueue.Close }
      relayResults false (sg3.outputQueue.items.length + 1) sg3

/-- The values `gatherWork` has pushed that are still in the output queue or already with
the consumer, oldest first. -/
def emitted {R : Type} (sg : OrderedScatterGatherer R) : List R :=
  sg.resultsChan ++ sg.outputQueue.items

/-- Go: the state of the `gatherWork` locals before the first receive. -/
def gatherFresh {R : Type} (sg : OrderedScatterGatherer R) : Prop :=
  sg.bufferedItems = [] ∧ sg.awaitingIndex = 1 ∧ sg.released = []

/-- A gatherer with one worker and an input queue of capacity 1 after a first call to
`AddWork`, which is admitted with sequence number 1 and fills the input queue. -/
def gapCall1 : AddWorkResult Nat :=
  AddWork false (fun _ => 10) (NewOrderedScatterGather 1 1 0)

/-- The second call to `AddWork` finds the input queue full and its context is cancelled
while it waits: it returns an error, and sequence number 2 is spent. -/
def gapCall2 : AddWorkResult Nat :=
  AddWork true (fun _ => 20) gapCall1.sg

/-- The first item goes through the pipeline, and a third call to `AddWork` is admitted with
sequence number 3. -/
def gapCall3 : Option (AddWorkResult Nat) :=
  (processOne gapCall2.sg).map (AddWork false (fun _ => 30))

/-- The state in which `Drain` returns after the three calls. -/
def gapDrained : Outcome (OrderedScatterGatherer Nat) :=
  match gapCall3 with
  | none => Outcome.hang
  | some r => Drain id r.sg

/-- A gatherer whose result type is `error`, after a call to `AddWork` with a computation
that returns `nil`. -/
def nilErrorCall : AddWorkResult GoError :=
  AddWork false (fun _ => GoError.nil) (NewOrderedScatterGather 4 0 0)

/-- The item of `nilErrorCall` has gone through the pipeline as far as the output queue. -/
def nilErrorQueued : Option (OrderedScatterGatherer GoError) :=
  processOne nilErrorCall.sg

/-- The relay takes its turn on `nilErrorQueued`, the consumer reading `OutputChannel()`:
whether the relay panics, and what the consumer has read. -/
def nilErrorRelayed : Option (Bool × List GoError) :=
  nilErrorQueued.map (fun sg =>
    match relayStep false sg with
    | RelayStep.forwarded sg1 => (false, OutputChannel sg1)
    | RelayStep.panics => (true, OutputChannel sg)
    | RelayStep.idle => (false, OutputChannel sg))

/-- The invariant of the reorder stage once the results `arrived` have been received, all
with different sequence numbers, on a gatherer whose output held `base` before the first
receive. -/
structure GatherInv {R : Type} (base : List R) (arrived : List (workItemResult R))
    (sg : OrderedScatterGatherer R) : Prop where
  released_index : sg.released.map (fun b => b.index) = List.range' 1 sg.released.length
  awaiting : sg.awaitingIndex = (sg.released.length + 1) % uint64Size
  buffered : ∀ k v, mapGet sg.bufferedItems k = some v →
    v.index = k ∧ v ∈ arrived ∧ sg.released.length < k
  released_mem : ∀ b ∈ sg.released, b ∈ arrived
  accounted : ∀ a ∈ arrived,
    a.index ≤ sg.released.length ∨ mapGet sg.bufferedItems a.index = some a
  output : emitted sg = base ++ sg.released.map (fun b => b.result)

/-- The invariant of the reorder stage while no result with sequence number `k` arrives. -/
structure StallInv {R : Type} (base : List R) (k : Nat) (sg : OrderedScatterGatherer R) :
    Prop where
  awaiting : sg.awaitingIndex ≤ k
  released_lt : ∀ b ∈ sg.released, b.index < k
  keyed : ∀ j v, mapGet sg.bufferedItems j = some v → v.index = j
  absent : mapGet sg.bufferedItems k = none
  output : emitted sg = base ++ sg.released.map (fun b => b.result)

/-! ## The map -/

theorem mapGet_mapDelete {V : Type} (m : List (Nat × V)) (k j : Nat) :
    mapGet (mapDelete m k) j = if j = k then none else mapGet m j := by
  induction m with
  | nil => simp [mapDelete, mapGet]
  | cons e rest ih =>
    obtain ⟨k1, v⟩ := e
    unfold mapDelete at ih
    by_cases h : k1 = k
    · subst h
      by_cases hj : j = k1
      · subst hj
        simpa [mapDelete, List.filter, mapGet] using ih
      · have hj2 : ¬ k1 = j := fun e => hj e.symm
        simpa [mapDelete, List.filter, mapGet, hj, hj2] using ih
    · by_cases hj : j = k
      · subst hj
        simpa [mapDelete, List.filter, mapGet, h] using ih
      · by_cases hk : k1 = j
        · simp [mapDelete, List.filter, mapGet, h, hj, hk]
        · simpa [mapDelete, List.filter, mapGet, h, hj, hk] using ih

theorem mapGet_mapSet {V : Type} (m : List (Nat × V)) (k j : Nat) (v : V) :
    mapGet (mapSet m k v) j = if j = k then some v else mapGet m j := by
  by_cases hj : j = k
  · subst hj
    simp [mapSet, mapGet]
  · have hj2 : ¬ k = j := fun e => hj e.symm
    simp [mapSet, mapGet, hj, hj2, mapGet_mapDelete]

theorem mapGet_of_mem {V : Type} (m : List (Nat × V)) (e : Nat × V) (h : e ∈ m) :
    ∃ v, mapGet m e.1 = some v := by
  induction m with
  | nil => simp at h
  | cons e1 rest ih =>
    obtain ⟨k1, v1⟩ := e1
    by_cases hk : k1 = e.1
    · exact ⟨v1, by simp [mapGet, hk]⟩
    · rcases List.mem_cons.mp h with h1 | h1
      · exact absurd (by rw [h1]) hk
      · obtain ⟨v, hv⟩ := ih h1
        exact ⟨v, by simp [mapGet, hk, hv]⟩

theorem mem_of_mapGet {V : Type} (m : List (Nat × V)) (k : Nat) (v : V)
    (h : mapGet m k = some v) : (k, v) ∈ m := by
  induction m with
  | nil => simp [mapGet] at h
  | cons e1 rest ih =>
    obtain ⟨k1, v1⟩ := e1
    by_cases hk : k1 = k
    · simp [mapGet, hk] at h
      simp [hk, h]
    · simp [mapGet, hk] at h
      exact List.mem_cons_of_mem _ (ih h)

theorem length_mapDelete_le {V : Type} (m : List (Nat × V)) (k : Nat) :
    (mapDelete m k).length ≤ m.length := by
  unfold mapDelete
  exact List.length_filter_le _ _

theorem length_mapDelete_lt {V : Type} (m : List (Nat × V)) (k : Nat) (v : V)
    (h : mapGet m k = some v) : (mapDelete m k).length < m.length := by
  induction m with
  | nil => simp [mapGet] at h
  | cons e1 rest ih =>
    obtain ⟨k1, v1⟩ := e1
    by_cases hk : k1 = k
    · have := length_mapDelete_le rest k
      simp only [mapDelete, List.filter, hk, ne_eq, not_true_eq_false, decide_False,
        List.length_cons] at this ⊢
      omega
    · simp [mapGet, hk] at h
      have := ih h
      simp only [mapDelete, List.filter, hk, ne_eq, not_false_eq_true, decide_True,
        List.length_cons] at this ⊢
      omega

/-! ## The output queue and the relay -/

theorem relayN_some {R : Type} [GoResult R] (ctxDone : Bool) :
    ∀ (n : Nat) (sg sg1 : OrderedScatterGatherer R), relayN ctxDone n sg = some sg1 →
      sg1.bufferedItems = sg.bufferedItems ∧ sg1.awaitingIndex = sg.awaitingIndex ∧
      sg1.released = sg.released ∧ sg1.workQueue = sg.workQueue ∧
      sg1.lastIndex = sg.lastIndex ∧ sg1.outputQueue.closed = sg.outputQueue.closed ∧
      sg1.outputQueue.capacity = sg.outputQueue.capacity ∧ emitted sg1 = emitted sg ∧
      ∀ v ∈ sg1.outputQueue.items, v ∈ sg.outputQueue.items := by
  intro n
  induction n with
  | zero =>
    intro sg sg1 h
    simp only [relayN, Option.some.injEq] at h
    subst h
    exact ⟨rfl, rfl, rfl, rfl, rfl, rfl, rfl, rfl, fun _ h => h⟩
  | succ n ih =>
    intro sg sg1 h
    unfold relayN relayStep at h
    cases hitems : sg.outputQueue.items with
    | nil =>
      simp only [Bloque.Pop, hitems] at h
      have hsg : sg1 = sg := by
        split_ifs at h <;>
        · simp only [Option.some.injEq] at h
          exact h.symm
      subst hsg
      exact ⟨rfl, rfl, rfl, rfl, rfl, rfl, rfl, rfl, fun _ h => by rw [hitems] at h; exact h⟩
    | cons x rest =>
      simp only [Bloque.Pop, hitems] at h
      split_ifs at h
      obtain ⟨e1, e2, e3, e4, e5, e6, e7, e8, e9⟩ := ih _ sg1 h
      refine ⟨e1, e2, e3, e4, e5, e6, e7, ?_, ?_⟩
      · rw [e8]
        simp [emitted, hitems]
      · intro v hv
        exact List.mem_cons_of_mem _ (e9 v hv)

theorem relayN_eq {R : Type} [GoResult R] (ctxDone : Bool) :
    ∀ (n : Nat) (sg : OrderedScatterGatherer R),
      (∀ v ∈ sg.outputQueue.items, GoResult.nilInterface v = false) →
      relayN ctxDone n sg = some
        { sg with
          outputQueue := { sg.outputQueue with items := sg.outputQueue.items.drop n }
          resultsChan := sg.resultsChan ++ sg.outputQueue.items.take n } := by
  intro n
  induction n with
  | zero => intro sg _; simp [relayN]
  | succ n ih =>
    intro sg hok
    cases hitems : sg.outputQueue.items with
    | nil =>
      have hq : sg.outputQueue = { sg.outputQueue with items := [] } := by
        rw [← hitems]
      simp only [relayN, relayStep, Bloque.Pop, hitems]
      split_ifs <;> simp [← hq]
    | cons x rest =>
      have hx : GoResult.nilInterface x = false :=
        hok x (by rw [hitems]; exact List.mem_cons_self _ _)
      have hrest : ∀ v ∈ rest, GoResult.nilInterface v = false :=
        fun v hv => hok v (by rw [hitems]; exact List.mem_cons_of_mem _ hv)
      simp only [relayN, relayStep, Bloque.Pop, hitems, hx, Bool.false_eq_true, ↓reduceIte]
      rw [ih _ hrest]
      simp

theorem pushOutput_some {R : Type} [GoResult R] (ctxDone : Bool)
    (sg sg1 : OrderedScatterGatherer R) (r : R) (h : pushOutput ctxDone sg r = some sg1) :
    sg1.bufferedItems = sg.bufferedItems ∧ sg1.awaitingIndex = sg.awaitingIndex ∧
      sg1.released = sg.released ∧ sg1.workQueue = sg.workQueue ∧
      sg1.lastIndex = sg.lastIndex ∧ sg1.outputQueue.closed = sg.outputQueue.closed ∧
      sg1.outputQueue.capacity = sg.outputQueue.capacity ∧
      emitted sg1 = emitted sg ++ [r] ∧
      ∀ v ∈ sg1.outputQueue.items, v ∈ sg.outputQueue.items ∨ v = r := by
  unfold pushOutput at h
  cases hp : sg.outputQueue.Push ctxDone r with
  | pushed q =>
    rw [hp] at h
    simp only [Option.some.injEq] at h
    subst h
    unfold Bloque.Push at hp
    split_ifs at hp
    simp only [PushResult.pushed.injEq] at hp
    subst hp
    simp [emitted]
  | failed => rw [hp] at h; simp at h
  | blocks =>
    rw [hp] at h
    simp only at h
    cases hr : relayN ctxDone (sg.outputQueue.items.length + 1 - sg.outputQueue.capacity) sg with
    | none => rw [hr] at h; simp at h
    | some sg2 =>
      rw [hr] at h
      simp only at h
      obtain ⟨e1, e2, e3, e4, e5, e6, e7, e8, e9⟩ := relayN_some ctxDone _ sg sg2 hr
      unfold Bloque.Push at h
      split_ifs at h
      simp only [Option.some.injEq] at h
      subst h
      refine ⟨e1, e2, e3, e4, e5, e6, e7, ?_, ?_⟩
      · simp only [emitted] at e8 ⊢
        rw [← List.append_assoc, e8]
      · intro v hv
        simp only [List.mem_append, List.mem_singleton] at hv
        rcases hv with hv | hv
        · exact Or.inl (e9 v hv)
        · exact Or.inr hv

theorem pushOutput_open {R : Type} [GoResult R] (sg : OrderedScatterGatherer R) (r : R)
    (hopen : sg.outputQueue.closed = false)
    (hok : ∀ v ∈ sg.outputQueue.items, GoResult.nilInterface v = false) :
    ∃ sg1, pushOutput false sg r = some sg1 := by
  unfold pushOutput
  cases hp : sg.outputQueue.Push false r with
  | pushed q => exact ⟨_, rfl⟩
  | failed =>
    unfold Bloque.Push at hp
    simp [hopen] at hp
    split_ifs at hp
  | blocks =>
    simp only
    rw [relayN_eq false _ sg hok]
    unfold Bloque.Push at hp ⊢
    simp only [hopen, Bool.or_self, Bool.false_eq_true, ↓reduceIte] at hp ⊢
    split_ifs at hp with hfull
    have hnot : ¬ (Bloque.full
        { items := List.drop (sg.outputQueue.items.length + 1 - sg.outputQueue.capacity)
            sg.outputQueue.items
          capacity := sg.outputQueue.capacity
          closed := false } = true) := by
      simp only [Bloque.full, Bool.and_eq_true, bne_iff_ne, ne_eq, decide_eq_true_eq,
        List.length_drop] at hfull ⊢
      omega
    rw [if_neg hnot]
    exact ⟨_, rfl⟩

theorem pushOutput_none {R : Type} [GoResult R] (ctxDone : Bool)
    (sg : OrderedScatterGatherer R) (r : R)
    (h : sg.outputQueue.Push ctxDone r = PushResult.failed) :
    pushOutput ctxDone sg r = none := by
  unfold pushOutput
  rw [h]

/-! ## The reorder stage with pairwise different sequence numbers -/

theorem mod_uint64_le (n : Nat) : n % uint64Size ≤ n := Nat.mod_le _ _

theorem releaseLoop_inv {R : Type} [GoResult R] (ctxDone : Bool) (base : List R)
    (arrived : List (workItemResult R)) :
    ∀ (fuel : Nat) (sg : OrderedScatterGatherer R), sg.bufferedItems.length < fuel →
      GatherInv base arrived sg →
      ∃ sg1, releaseLoop ctxDone fuel sg = some sg1 ∧ GatherInv base arrived sg1 ∧
        sg1.outputQueue.closed = sg.outputQueue.closed ∧
        sg1.workQueue = sg.workQueue ∧ sg1.lastIndex = sg.lastIndex ∧
        (sg.outputQueue.closed = false → ctxDone = false →
          (∀ v ∈ sg.outputQueue.items, GoResult.nilInterface v = false) →
          (∀ a ∈ arrived, GoResult.nilInterface a.result = false) →
          mapGet sg1.bufferedItems sg1.awaitingIndex = none ∧
            ∀ v ∈ sg1.outputQueue.items, GoResult.nilInterface v = false) := by
  intro fuel
  induction fuel with
  | zero => intro sg h; omega
  | succ fuel ih =>
    intro sg hlen inv
    unfold releaseLoop
    cases hget : mapGet sg.bufferedItems sg.awaitingIndex with
    | none => exact ⟨sg, rfl, inv, rfl, rfl, rfl, fun _ _ hq _ => ⟨hget, hq⟩⟩
    | some b =>
      simp only
      cases hpush : pushOutput ctxDone sg b.result with
      | none =>
        refine ⟨sg, rfl, inv, rfl, rfl, rfl, ?_⟩
        intro hopen hctx hq _
        subst hctx
        obtain ⟨sg1, h1⟩ := pushOutput_open sg b.result hopen hq
        rw [h1] at hpush
        simp at hpush
      | some sg1 =>
        simp only
        obtain ⟨e1, e2, e3, e4, e5, e6, _, e8, e9⟩ :=
          pushOutput_some ctxDone sg sg1 b.result hpush
        obtain ⟨hb1, hb2, hb3⟩ := inv.buffered _ _ hget
        have haw : sg.awaitingIndex = sg.released.length + 1 := by
          have h1 := inv.awaiting
          have h2 := mod_uint64_le (sg.released.length + 1)
          omega
        have inv2 : GatherInv base arrived
            { sg1 with
              bufferedItems := mapDelete sg1.bufferedItems sg1.awaitingIndex
              awaitingIndex := (sg1.awaitingIndex + 1) % uint64Size
              released := sg1.released ++ [b] } := by
          constructor
          · simp only [e3, List.map_append, List.map_cons, List.map_nil, List.length_append,
              List.length_singleton, List.range'_1_concat, inv.released_index]
            rw [hb1, haw, Nat.add_comm]
          · simp only [e2, e3, List.length_append, List.length_singleton, haw]
          · intro k v hk
            simp only [e1, e2, e3, mapGet_mapDelete, List.length_append,
              List.length_singleton] at hk ⊢
            split_ifs at hk with hka
            obtain ⟨h1, h2, h3⟩ := inv.buffered k v hk
            exact ⟨h1, h2, by omega⟩
          · intro x hx
            simp only [e3, List.mem_append, List.mem_singleton] at hx
            rcases hx with hx | hx
            · exact inv.released_mem x hx
            · rw [hx]; exact hb2
          · intro a ha
            simp only [e1, e2, e3, mapGet_mapDelete, List.length_append, List.length_singleton]
            rcases inv.accounted a ha with h | h
            · left; omega
            · by_cases hka : a.index = sg.awaitingIndex
              · left; omega
              · right; simp [hka, h]
          · have hem : emitted { sg1 with
                bufferedItems := mapDelete sg1.bufferedItems sg1.awaitingIndex
                awaitingIndex := (sg1.awaitingIndex + 1) % uint64Size
                released := sg1.released ++ [b] } = emitted sg1 := rfl
            rw [hem, e8, inv.output]
            simp [e3]
        have hlen2 : (mapDelete sg1.bufferedItems sg1.awaitingIndex).length < fuel := by
          rw [e1, e2]
          have := length_mapDelete_lt _ _ _ hget
          omega
        obtain ⟨sg3, r1, r2, r3, r4, r5, r6⟩ := ih _ hlen2 inv2
        refine ⟨sg3, r1, r2, ?_, ?_, ?_, ?_⟩
        · rw [r3]; exact e6
        · rw [r4]; exact e4
        · rw [r5]; exact e5
        · intro hopen hctx hq harr
          refine r6 (by simpa [e6] using hopen) hctx ?_ harr
          intro v hv
          rcases e9 v hv with h | h
          · exact hq v h
          · rw [h]; exact harr b hb2

theorem gatherReceive_inv {R : Type} [GoResult R] (ctxDone : Bool) (base : List R)
    (arrived : List (workItemResult R)) (sg : OrderedScatterGatherer R) (a : workItemResult R)
    (inv : GatherInv base arrived sg) (hnew : ∀ x ∈ arrived, x.index ≠ a.index)
    (hpos : 1 ≤ a.index) :
    ∃ sg1, gatherReceive ctxDone sg a = some sg1 ∧ GatherInv base (arrived ++ [a]) sg1 ∧
      sg1.outputQueue.closed = sg.outputQueue.closed ∧
      sg1.workQueue = sg.workQueue ∧ sg1.lastIndex = sg.lastIndex ∧
      (sg.outputQueue.closed = false → ctxDone = false →
        (∀ v ∈ sg.outputQueue.items, GoResult.nilInterface v = false) →
        (∀ x ∈ arrived ++ [a], GoResult.nilInterface x.result = false) →
        mapGet sg1.bufferedItems sg1.awaitingIndex = none ∧
          ∀ v ∈ sg1.outputQueue.items, GoResult.nilInterface v = false) := by
  unfold gatherReceive
  have hrel : ∀ i, 1 ≤ i → i ≤ sg.released.length → ∃ x ∈ arrived, x.index = i := by
    intro i h1 h2
    have hi : i ∈ sg.released.map (fun b => b.index) := by
      rw [inv.released_index, List.mem_range']
      exact ⟨i - 1, by omega, by omega⟩
    obtain ⟨x, hx, hxi⟩ := List.mem_map.mp hi
    exact ⟨x, inv.released_mem x hx, hxi⟩
  have hgt : sg.released.length < a.index := by
    by_contra hle
    obtain ⟨x, hx, hxi⟩ := hrel a.index hpos (by omega)
    exact hnew x hx hxi
  have inv1 : GatherInv base (arrived ++ [a])
      { sg with bufferedItems := mapSet sg.bufferedItems a.index a } := by
    constructor
    · exact inv.released_index
    · exact inv.awaiting
    · intro k v hk
      simp only [mapGet_mapSet] at hk
      split_ifs at hk with hka
      · simp only [Option.some.injEq] at hk
        subst hk
        exact ⟨hka.symm, by simp, by show sg.released.length < k; omega⟩
      · obtain ⟨h1, h2, h3⟩ := inv.buffered k v hk
        exact ⟨h1, List.mem_append_left _ h2, h3⟩
    · intro x hx
      exact List.mem_append_left _ (inv.released_mem x hx)
    · intro x hx
      simp only [mapGet_mapSet]
      rcases List.mem_append.mp hx with hx | hx
      · rcases inv.accounted x hx with h | h
        · left; exact h
        · right; simp [hnew x hx, h]
      · simp only [List.mem_singleton] at hx
        subst hx
        right; simp
    · exact inv.output
  exact releaseLoop_inv ctxDone base (arrived ++ [a]) _ _ (Nat.lt_succ_self _) inv1

theorem gatherWork_inv {R : Type} [GoResult R] (ctxDone : Bool) (base : List R) :
    ∀ (l arrived : List (workItemResult R)) (sg : OrderedScatterGatherer R),
      GatherInv base arrived sg →
      ((arrived ++ l).map (fun a => a.index)).Nodup → (∀ a ∈ l, 1 ≤ a.index) →
      ∃ sg1, gatherWork ctxDone l sg = some sg1 ∧ GatherInv base (arrived ++ l) sg1 ∧
        sg1.outputQueue.closed = sg.outputQueue.closed ∧
        sg1.workQueue = sg.workQueue ∧ sg1.lastIndex = sg.lastIndex ∧
        (sg.outputQueue.closed = false → ctxDone = false →
          (∀ v ∈ sg.outputQueue.items, GoResult.nilInterface v = false) →
          (∀ x ∈ arrived ++ l, GoResult.nilInterface x.result = false) →
          mapGet sg.bufferedItems sg.awaitingIndex = none →
          mapGet sg1.bufferedItems sg1.awaitingIndex = none ∧
            ∀ v ∈ sg1.outputQueue.items, GoResult.nilInterface v = false) := by
  intro l
  induction l with
  | nil =>
    intro arrived sg inv _ _
    exact ⟨sg, rfl, by simpa using inv, rfl, rfl, rfl, fun _ _ hq _ h => ⟨h, hq⟩⟩
  | cons a rest ih =>
    intro arrived sg inv hnd hpos
    have hnew : ∀ x ∈ arrived, x.index ≠ a.index := by
      intro x hx hxa
      rw [List.map_append, List.nodup_append] at hnd
      exact hnd.2.2 (List.mem_map.mpr ⟨x, hx, rfl⟩)
        (List.mem_map.mpr ⟨a, List.mem_cons_self _ _, hxa.symm⟩)
    obtain ⟨sg1, r1, r2, r3, r4, r5, r6⟩ :=
      gatherReceive_inv ctxDone base arrived sg a inv hnew (hpos a (List.mem_cons_self _ _))
    have hnd2 : (((arrived ++ [a]) ++ rest).map (fun a => a.index)).Nodup := by
      simpa using hnd
    obtain ⟨sg2, q1, q2, q3, q4, q5, q6⟩ :=
      ih (arrived ++ [a]) sg1 r2 hnd2 (fun x hx => hpos x (List.mem_cons_of_mem _ hx))
    refine ⟨sg2, ?_, by simpa using q2, by rw [q3, r3], by rw [q4, r4], by rw [q5, r5], ?_⟩
    · simp [gatherWork, r1, q1]
    · intro hopen hctx hq harr _
      have hstep := r6 hopen hctx hq
        (fun x hx => harr x (by
          rcases List.mem_append.mp hx with h | h
          · exact List.mem_append_left _ h
          · simp only [List.mem_singleton] at h
            rw [h]
            exact List.mem_append_right _ (List.mem_cons_self _ _)))
      exact q6 (by rw [r3]; exact hopen) hctx hstep.2
        (fun x hx => harr x (by simpa using hx)) hstep.1

theorem gatherInv_fresh {R : Type} (sg : OrderedScatterGatherer R) (h : gatherFresh sg) :
    GatherInv (emitted sg) [] sg := by
  obtain ⟨h1, h2, h3⟩ := h
  constructor
  · simp [h3]
  · simp [h2, h3, uint64Size]
  · intro k v hk
    simp [h1, mapGet] at hk
  · intro b hb
    simp [h3] at hb
  · intro a ha
    simp at ha
  · simp [h3]

theorem eq_of_index_eq {R : Type} :
    ∀ (l1 l2 : List (workItemResult R)),
      l1.map (fun b => b.index) = l2.map (fun b => b.index) →
      (l2.map (fun b => b.index)).Nodup → (∀ b ∈ l1, b ∈ l2) → l1 = l2 := by
  intro l1
  induction l1 with
  | nil =>
    intro l2 h _ _
    cases l2 with
    | nil => rfl
    | cons c u => simp at h
  | cons b t ih =>
    intro l2 h hnd hmem
    cases l2 with
    | nil => simp at h
    | cons c u =>
      simp only [List.map_cons, List.cons.injEq] at h
      simp only [List.map_cons, List.nodup_cons] at hnd
      have hbc : b = c := by
        rcases List.mem_cons.mp (hmem b (List.mem_cons_self _ _)) with hb | hb
        · exact hb
        · exact absurd (List.mem_map.mpr ⟨b, hb, h.1⟩) hnd.1
      subst hbc
      have htu : t = u := by
        apply ih u h.2 hnd.2
        intro x hx
        rcases List.mem_cons.mp (hmem x (List.mem_cons_of_mem _ hx)) with hxb | hxb
        · subst hxb
          have : x.index ∈ u.map (fun b => b.index) := by
            rw [← h.2]
            exact List.mem_map.mpr ⟨x, hx, rfl⟩
          exact absurd this hnd.1
        · exact hxb
      rw [htu]

theorem gatherWork_sorted {R : Type} [GoResult R] (sg : OrderedScatterGatherer R)
    (arrivals expected : List (workItemResult R))
    (hfresh : gatherFresh sg) (hopen : sg.outputQueue.closed = false)
    (hqueue : ∀ v ∈ sg.outputQueue.items, GoResult.nilInterface v = false)
    (hnil : ∀ x ∈ expected, GoResult.nilInterface x.result = false)
    (hidx : expected.map (fun b => b.index) = List.range' 1 expected.length)
    (hlen : expected.length < uint64Size) (hperm : arrivals.Perm expected) :
    ∃ sg1, gatherWork false arrivals sg = some sg1 ∧ sg1.released = expected ∧
      emitted sg1 = emitted sg ++ expected.map (fun b => b.result) ∧
      sg1.outputQueue.closed = false ∧ sg1.workQueue = sg.workQueue ∧
      sg1.lastIndex = sg.lastIndex ∧ sg1.bufferedItems = [] ∧
      ∀ v ∈ sg1.outputQueue.items, GoResult.nilInterface v = false := by
  have hkeys : (arrivals.map (fun a => a.index)).Perm (List.range' 1 expected.length) := by
    rw [← hidx]
    exact hperm.map _
  have hnd : ((([] : List (workItemResult R)) ++ arrivals).map (fun a => a.index)).Nodup := by
    simpa using (hkeys.nodup_iff).mpr (List.nodup_range' 1 expected.length)
  have hpos : ∀ a ∈ arrivals, 1 ≤ a.index := by
    intro a ha
    have : a.index ∈ List.range' 1 expected.length :=
      hkeys.subset (List.mem_map.mpr ⟨a, ha, rfl⟩)
    rw [List.mem_range'] at this
    omega
  obtain ⟨sg1, r1, r2, r3, r4, r5, r6⟩ :=
    gatherWork_inv false (emitted sg) arrivals [] sg (gatherInv_fresh sg hfresh) hnd hpos
  simp only [List.nil_append] at r2
  have hdone := r6 hopen rfl hqueue
    (fun x hx => hnil x (hperm.subset (by simpa using hx)))
    (by rw [hfresh.1]; rfl)
  have hquiet : mapGet sg1.bufferedItems sg1.awaitingIndex = none := hdone.1
  have hle : sg1.released.length ≤ expected.length := by
    by_contra hgt
    have hi : sg1.released.length ∈ sg1.released.map (fun b => b.index) := by
      rw [r2.released_index, List.mem_range']
      exact ⟨sg1.released.length - 1, by omega, by omega⟩
    obtain ⟨x, hx, hxi⟩ := List.mem_map.mp hi
    have : x.index ∈ List.range' 1 expected.length :=
      hkeys.subset (List.mem_map.mpr ⟨x, r2.released_mem x hx, rfl⟩)
    rw [List.mem_range'] at this
    omega
  have hge : expected.length ≤ sg1.released.length := by
    by_contra hlt
    have hi : sg1.released.length + 1 ∈ arrivals.map (fun a => a.index) := by
      apply hkeys.symm.subset
      rw [List.mem_range']
      exact ⟨sg1.released.length, by omega, by omega⟩
    obtain ⟨a, ha, hai⟩ := List.mem_map.mp hi
    have haw : sg1.awaitingIndex = sg1.released.length + 1 := by
      rw [r2.awaiting]
      apply Nat.mod_eq_of_lt
      omega
    rcases r2.accounted a ha with h | h
    · omega
    · rw [hai, ← haw, hquiet] at h
      simp at h
  have hlenEq : sg1.released.length = expected.length := by omega
  have hrel : sg1.released = expected := by
    apply eq_of_index_eq
    · rw [r2.released_index, hidx, hlenEq]
    · rw [hidx]; exact List.nodup_range' 1 expected.length
    · intro b hb
      exact hperm.subset (r2.released_mem b hb)
  refine ⟨sg1, r1, hrel, ?_, ?_, r4, r5, ?_, hdone.2⟩
  · rw [r2.output, hrel]
  · rw [r3]; exact hopen
  · apply List.eq_nil_iff_forall_not_mem.mpr
    intro e he
    obtain ⟨v, hv⟩ := mapGet_of_mem sg1.bufferedItems e he
    obtain ⟨h1, h2, h3⟩ := r2.buffered e.1 v hv
    have : v.index ∈ List.range' 1 expected.length :=
      hkeys.subset (List.mem_map.mpr ⟨v, h2, rfl⟩)
    rw [List.mem_range'] at this
    omega

/-! ## Sequence admission -/

theorem AddWork_item {R : Type} (ctxDone : Bool) (f : Unit → R) (sg : OrderedScatterGatherer R) :
    (AddWork ctxDone f sg).item = { index := (sg.lastIndex + 1) % uint64Size, f := f } := by
  unfold AddWork
  simp only
  split <;> rfl

theorem AddWork_lastIndex {R : Type} (ctxDone : Bool) (f : Unit → R)
    (sg : OrderedScatterGatherer R) :
    (AddWork ctxDone f sg).sg.lastIndex = (sg.lastIndex + 1) % uint64Size := by
  unfold AddWork
  simp only
  split <;> rfl

theorem AddWork_gather {R : Type} (ctxDone : Bool) (f : Unit → R)
    (sg : OrderedScatterGatherer R) :
    (AddWork ctxDone f sg).sg.outputQueue = sg.outputQueue ∧
      (AddWork ctxDone f sg).sg.resultsChan = sg.resultsChan ∧
      (AddWork ctxDone f sg).sg.bufferedItems = sg.bufferedItems ∧
      (AddWork ctxDone f sg).sg.awaitingIndex = sg.awaitingIndex ∧
      (AddWork ctxDone f sg).sg.released = sg.released := by
  unfold AddWork
  simp only
  split <;> exact ⟨rfl, rfl, rfl, rfl, rfl⟩

theorem AddWorkCalls_gather {R : Type} :
    ∀ (calls : List (Bool × (Unit → R))) (sg : OrderedScatterGatherer R),
      (AddWorkCalls calls sg).1.outputQueue = sg.outputQueue ∧
      (AddWorkCalls calls sg).1.resultsChan = sg.resultsChan ∧
      (AddWorkCalls calls sg).1.bufferedItems = sg.bufferedItems ∧
      (AddWorkCalls calls sg).1.awaitingIndex = sg.awaitingIndex ∧
      (AddWorkCalls calls sg).1.released = sg.released := by
  intro calls
  induction calls with
  | nil => intro sg; exact ⟨rfl, rfl, rfl, rfl, rfl⟩
  | cons c rest ih =>
    intro sg
    obtain ⟨ctxDone, f⟩ := c
    obtain ⟨h1, h2, h3, h4, h5⟩ := ih (AddWork ctxDone f sg).sg
    obtain ⟨g1, g2, g3, g4, g5⟩ := AddWork_gather ctxDone f sg
    simp only [AddWorkCalls]
    exact ⟨h1.trans g1, h2.trans g2, h3.trans g3, h4.trans g4, h5.trans g5⟩

theorem AddWorkCalls_length {R : Type} :
    ∀ (calls : List (Bool × (Unit → R))) (sg : OrderedScatterGatherer R),
      (AddWorkCalls calls sg).2.length = calls.length := by
  intro calls
  induction calls with
  | nil => intro sg; rfl
  | cons c rest ih =>
    intro sg
    obtain ⟨ctxDone, f⟩ := c
    simp [AddWorkCalls, ih]

theorem AddWorkCalls_index {R : Type} :
    ∀ (calls : List (Bool × (Unit → R))) (sg : OrderedScatterGatherer R) (m : Nat),
      sg.lastIndex = m % uint64Size →
      (AddWorkCalls calls sg).2.map (fun r => r.item.index) =
        (List.range' (m + 1) calls.length).map (fun i => i % uint64Size) := by
  intro calls
  induction calls with
  | nil => intro sg m _; rfl
  | cons c rest ih =>
    intro sg m hm
    obtain ⟨ctxDone, f⟩ := c
    have hnext : (AddWork ctxDone f sg).sg.lastIndex = (m + 1) % uint64Size := by
      rw [AddWork_lastIndex, hm, Nat.mod_add_mod]
    simp only [AddWorkCalls, List.map_cons, List.length_cons, List.range'_succ,
      ih (AddWork ctxDone f sg).sg (m + 1) hnext, AddWork_item, hm, Nat.mod_add_mod]

theorem AddWorkCalls_f {R : Type} :
    ∀ (calls : List (Bool × (Unit → R))) (sg : OrderedScatterGatherer R),
      (AddWorkCalls calls sg).2.map (fun r => r.item.f) = calls.map (fun c => c.2) := by
  intro calls
  induction calls with
  | nil => intro sg; rfl
  | cons c rest ih =>
    intro sg
    obtain ⟨ctxDone, f⟩ := c
    simp only [AddWorkCalls, List.map_cons, ih, AddWork_item]

theorem relayResults_closed {R : Type} [GoResult R] :
    ∀ (fuel : Nat) (sg : OrderedScatterGatherer R), sg.outputQueue.closed = true →
      (∀ v ∈ sg.outputQueue.items, GoResult.nilInterface v = false) →
      sg.outputQueue.items.length < fuel →
      ∃ sg1, relayResults false fuel sg = Outcome.ok sg1 ∧
        sg1.resultsChan = sg.resultsChan ++ sg.outputQueue.items ∧
        sg1.outputQueue.items = [] ∧ sg1.bufferedItems = sg.bufferedItems ∧
        sg1.awaitingIndex = sg.awaitingIndex ∧ sg1.released = sg.released := by
  intro fuel
  induction fuel with
  | zero => intro sg _ _ h; omega
  | succ fuel ih =>
    intro sg hclosed hok hlen
    unfold relayResults
    cases hitems : sg.outputQueue.items with
    | nil =>
      simp only [Bloque.Pop, hitems, hclosed, Bool.or_false, ↓reduceIte]
      exact ⟨sg, rfl, by simp, hitems, rfl, rfl, rfl⟩
    | cons x rest =>
      have hx : GoResult.nilInterface x = false :=
        hok x (by rw [hitems]; exact List.mem_cons_self _ _)
      have hrest : ∀ v ∈ rest, GoResult.nilInterface v = false :=
        fun v hv => hok v (by rw [hitems]; exact List.mem_cons_of_mem _ hv)
      simp only [Bloque.Pop, hitems, hx, Bool.false_eq_true, ↓reduceIte]
      rw [hitems] at hlen
      obtain ⟨sg1, r1, r2, r3, r4, r5, r6⟩ :=
        ih { sg with
             outputQueue := { sg.outputQueue with items := rest }
             resultsChan := sg.resultsChan ++ [x] } hclosed hrest
          (by simp only [List.length_cons] at hlen; simpa using Nat.lt_of_succ_lt_succ hlen)
      exact ⟨sg1, r1, by simpa using r2, r3, r4, r5, r6⟩

/-! ## The reorder stage while a sequence number is missing -/

theorem gatherWork_append {R : Type} [GoResult R] (ctxDone : Bool) :
    ∀ (l1 l2 : List (workItemResult R)) (sg : OrderedScatterGatherer R),
      gatherWork ctxDone (l1 ++ l2) sg = (gatherWork ctxDone l1 sg).bind (gatherWork ctxDone l2) := by
  intro l1
  induction l1 with
  | nil => intro l2 sg; rfl
  | cons a rest ih =>
    intro l2 sg
    simp only [List.cons_append, gatherWork]
    cases gatherReceive ctxDone sg a with
    | none => rfl
    | some sg1 => simp [ih]

theorem releaseLoop_stall {R : Type} [GoResult R] (ctxDone : Bool) (base : List R) (k : Nat) :
    ∀ (fuel : Nat) (sg : OrderedScatterGatherer R), sg.bufferedItems.length < fuel →
      StallInv base k sg →
      ∃ sg1, releaseLoop ctxDone fuel sg = some sg1 ∧ StallInv base k sg1 ∧
        ∀ j, k < j → mapGet sg1.bufferedItems j = mapGet sg.bufferedItems j := by
  intro fuel
  induction fuel with
  | zero => intro sg h; omega
  | succ fuel ih =>
    intro sg hlen inv
    unfold releaseLoop
    cases hget : mapGet sg.bufferedItems sg.awaitingIndex with
    | none => exact ⟨sg, rfl, inv, fun _ _ => rfl⟩
    | some b =>
      simp only
      cases hpush : pushOutput ctxDone sg b.result with
      | none => exact ⟨sg, rfl, inv, fun _ _ => rfl⟩
      | some sg1 =>
        simp only
        obtain ⟨e1, e2, e3, _, _, _, _, e8, _⟩ := pushOutput_some ctxDone sg sg1 b.result hpush
        have hne : sg.awaitingIndex ≠ k := by
          intro h
          rw [h, inv.absent] at hget
          simp at hget
        have hlt : sg.awaitingIndex < k := lt_of_le_of_ne inv.awaiting hne
        have inv2 : StallInv base k
            { sg1 with
              bufferedItems := mapDelete sg1.bufferedItems sg1.awaitingIndex
              awaitingIndex := (sg1.awaitingIndex + 1) % uint64Size
              released := sg1.released ++ [b] } := by
          constructor
          · show (sg1.awaitingIndex + 1) % uint64Size ≤ k
            have := mod_uint64_le (sg1.awaitingIndex + 1)
            omega
          · intro x hx
            simp only [e3, List.mem_append, List.mem_singleton] at hx
            rcases hx with hx | hx
            · exact inv.released_lt x hx
            · rw [hx, inv.keyed _ _ hget]; exact hlt
          · intro j v hj
            simp only [e1, e2, mapGet_mapDelete] at hj
            split_ifs at hj
            exact inv.keyed j v hj
          · simp only [e1, e2, mapGet_mapDelete]
            split_ifs
            · rfl
            · exact inv.absent
          · have hem : emitted { sg1 with
                bufferedItems := mapDelete sg1.bufferedItems sg1.awaitingIndex
                awaitingIndex := (sg1.awaitingIndex + 1) % uint64Size
                released := sg1.released ++ [b] } = emitted sg1 := rfl
            rw [hem, e8, inv.output]
            simp [e3]
        have hlen2 : (mapDelete sg1.bufferedItems sg1.awaitingIndex).length < fuel := by
          rw [e1, e2]
          have := length_mapDelete_lt _ _ _ hget
          omega
        obtain ⟨sg3, r1, r2, r3⟩ := ih _ hlen2 inv2
        refine ⟨sg3, r1, r2, ?_⟩
        intro j hj
        rw [r3 j hj]
        simp only [e1, e2, mapGet_mapDelete]
        rw [if_neg (by omega)]

theorem gatherReceive_stall {R : Type} [GoResult R] (ctxDone : Bool) (base : List R) (k : Nat)
    (sg : OrderedScatterGatherer R) (a : workItemResult R) (inv : StallInv base k sg)
    (hne : a.index ≠ k) :
    ∃ sg1, gatherReceive ctxDone sg a = some sg1 ∧ StallInv base k sg1 ∧
      ∀ j, k < j →
        mapGet sg1.bufferedItems j = if j = a.index then some a else mapGet sg.bufferedItems j := by
  unfold gatherReceive
  have inv1 : StallInv base k { sg with bufferedItems := mapSet sg.bufferedItems a.index a } := by
    constructor
    · exact inv.awaiting
    · exact inv.released_lt
    · intro j v hj
      simp only [mapGet_mapSet] at hj
      split_ifs at hj with hja
      · simp only [Option.some.injEq] at hj
        rw [← hj, hja]
      · exact inv.keyed j v hj
    · simp only [mapGet_mapSet]
      rw [if_neg (fun h => hne h.symm)]
      exact inv.absent
    · exact inv.output
  obtain ⟨sg1, r1, r2, r3⟩ :=
    releaseLoop_stall ctxDone base k _ _ (Nat.lt_succ_self _) inv1
  refine ⟨sg1, r1, r2, ?_⟩
  intro j hj
  rw [r3 j hj]
  simp only [mapGet_mapSet]

theorem gatherWork_stall {R : Type} [GoResult R] (ctxDone : Bool) (base : List R) (k : Nat) :
    ∀ (l : List (workItemResult R)) (sg : OrderedScatterGatherer R), StallInv base k sg →
      (∀ a ∈ l, a.index ≠ k) →
      ∃ sg1, gatherWork ctxDone l sg = some sg1 ∧ StallInv base k sg1 ∧
        (∀ j, k < j → (∀ a ∈ l, a.index ≠ j) →
          mapGet sg1.bufferedItems j = mapGet sg.bufferedItems j) ∧
        (∀ j, k < j → (mapGet sg.bufferedItems j).isSome →
          (mapGet sg1.bufferedItems j).isSome) ∧
        (∀ a ∈ l, k < a.index → (mapGet sg1.bufferedItems a.index).isSome) := by
  intro l
  induction l with
  | nil =>
    intro sg inv _
    exact ⟨sg, rfl, inv, fun _ _ _ => rfl, fun _ _ h => h, fun a ha => by simp at ha⟩
  | cons a rest ih =>
    intro sg inv hgap
    obtain ⟨sg1, r1, r2, r3⟩ :=
      gatherReceive_stall ctxDone base k sg a inv (hgap a (List.mem_cons_self _ _))
    obtain ⟨sg2, q1, q2, q3, q4, q5⟩ :=
      ih sg1 r2 (fun x hx => hgap x (List.mem_cons_of_mem _ hx))
    refine ⟨sg2, by simp [gatherWork, r1, q1], q2, ?_, ?_, ?_⟩
    · intro j hj hno
      rw [q3 j hj (fun x hx => hno x (List.mem_cons_of_mem _ hx)), r3 j hj]
      rw [if_neg (fun h => hno a (List.mem_cons_self _ _) h.symm)]
    · intro j hj hsome
      apply q4 j hj
      rw [r3 j hj]
      split_ifs
      · rfl
      · exact hsome
    · intro x hx hxk
      rcases List.mem_cons.mp hx with hxa | hxr
      · subst hxa
        apply q4 _ hxk
        rw [r3 _ hxk]
        simp
      · exact q5 x hxr hxk

theorem stallInv_fresh {R : Type} (sg : OrderedScatterGatherer R) (k : Nat) (hk : 1 ≤ k)
    (h : gatherFresh sg) : StallInv (emitted sg) k sg := by
  obtain ⟨h1, h2, h3⟩ := h
  constructor
  · omega
  · intro b hb
    simp [h3] at hb
  · intro j v hj
    simp [h1, mapGet] at hj
  · simp [h1, mapGet]
  · simp [h3]

theorem AddWorkCalls_doWork {R : Type} (fs : List (Unit → R)) (sg : OrderedScatterGatherer R)
    (h0 : sg.lastIndex = 0) (hN : fs.length < uint64Size) :
    ((AddWorkCalls (fs.map (fun f => (false, f))) sg).2.map (fun r => doWork r.item)).map
        (fun b => b.index) = List.range' 1 fs.length ∧
      ((AddWorkCalls (fs.map (fun f => (false, f))) sg).2.map (fun r => doWork r.item)).length =
        fs.length ∧
      ((AddWorkCalls (fs.map (fun f => (false, f))) sg).2.map (fun r => doWork r.item)).map
        (fun b => b.result) = fs.map (fun f => f ()) := by
  refine ⟨?_, ?_, ?_⟩
  · have h := AddWorkCalls_index (fs.map (fun f => (false, f))) sg 0 (by rw [h0]; rfl)
    simp only [List.map_map, List.length_map, Nat.zero_add] at h ⊢
    have hfun : ((fun b : workItemResult R => b.index) ∘ fun r : AddWorkResult R => doWork r.item)
        = fun r => r.item.index := rfl
    rw [hfun, h]
    conv_rhs => rw [← List.map_id (List.range' 1 fs.length)]
    apply List.map_congr_left
    intro i hi
    rw [List.mem_range'] at hi
    simp only [id_eq]
    apply Nat.mod_eq_of_lt
    omega
  · simp [AddWorkCalls_length]
  · have h := AddWorkCalls_f (fs.map (fun f => (false, f))) sg
    simp only [List.map_map] at h ⊢
    have hfun : ((fun b : workItemResult R => b.result) ∘ fun r : AddWorkResult R => doWork r.item)
        = (fun f : Unit → R => f ()) ∘ (fun r : AddWorkResult R => r.item.f) := rfl
    rw [hfun, ← List.map_map, h]
    simp [Function.comp_def]

/-! ## Shutdown -/

theorem pickWork_closed {R : Type} :
    ∀ (fuel : Nat) (sg : OrderedScatterGatherer R), sg.workQueue.closed = true →
      sg.workQueue.items.length < fuel →
      ∃ sg1, pickWork false fuel sg = some (sg.workQueue.items, sg1) ∧
        sg1.outputQueue = sg.outputQueue ∧ sg1.resultsChan = sg.resultsChan ∧
        sg1.bufferedItems = sg.bufferedItems ∧ sg1.awaitingIndex = sg.awaitingIndex ∧
        sg1.released = sg.released ∧ sg1.workQueue.items = [] := by
  intro fuel
  induction fuel with
  | zero => intro sg _ h; omega
  | succ fuel ih =>
    intro sg hclosed hlen
    unfold pickWork
    cases hitems : sg.workQueue.items with
    | nil =>
      simp only [Bloque.Pop, hitems, hclosed, Bool.or_false, ↓reduceIte]
      exact ⟨sg, rfl, rfl, rfl, rfl, rfl, rfl, hitems⟩
    | cons x rest =>
      simp only [Bloque.Pop, hitems]
      rw [hitems] at hlen
      obtain ⟨sg1, r1, r2, r3, r4, r5, r6, r7⟩ :=
        ih { sg with workQueue := { sg.workQueue with items := rest } } hclosed
          (by simp only [List.length_cons] at hlen; simpa using Nat.lt_of_succ_lt_succ hlen)
      exact ⟨sg1, by simp [r1], r2, r3, r4, r5, r6, r7⟩

theorem pickWork_lastIndex {R : Type} (ctxDone : Bool) (n : Nat) :
    ∀ (fuel : Nat) (sg : OrderedScatterGatherer R),
      (pickWork ctxDone fuel { sg with lastIndex := n }).map (fun out => out.1) =
        (pickWork ctxDone fuel sg).map (fun out => out.1) := by
  intro fuel
  induction fuel with
  | zero => intro sg; rfl
  | succ fuel ih =>
    intro sg
    unfold pickWork
    cases hitems : sg.workQueue.items with
    | nil =>
      simp only [Bloque.Pop, hitems]
      split_ifs <;> rfl
    | cons x rest =>
      simp only [Bloque.Pop, hitems, Option.map_map]
      have h := ih { sg with workQueue := { sg.workQueue with items := rest } }
      simp only [Option.map_eq_map] at h ⊢
      have hcomp : ((fun out : List (workItem R) × OrderedScatterGatherer R => out.1) ∘
          fun out : List (workItem R) × OrderedScatterGatherer R => (x :: out.1, out.2)) =
          (fun l => x :: l) ∘ (fun out => out.1) := rfl
      rw [hcomp, ← Option.map_map, ← Option.map_map, h]

theorem AddWorkCalls_queue {R : Type} :
    ∀ (fs : List (Unit → R)) (sg : OrderedScatterGatherer R),
      sg.workQueue.capacity = 0 → sg.workQueue.closed = false →
      (AddWorkCalls (fs.map (fun f => (false, f))) sg).1.workQueue.items =
        sg.workQueue.items ++
          (AddWorkCalls (fs.map (fun f => (false, f))) sg).2.map (fun r => r.item) ∧
      (∀ r ∈ (AddWorkCalls (fs.map (fun f => (false, f))) sg).2,
        r.err = CallStatus.returnedNil) := by
  intro fs
  induction fs with
  | nil => intro sg _ _; simp [AddWorkCalls]
  | cons f rest ih =>
    intro sg hcap hopen
    have hpush : AddWork false f sg =
        { sg := { sg with
                  lastIndex := (sg.lastIndex + 1) % uint64Size
                  workQueue := { sg.workQueue with
                    items := sg.workQueue.items ++
                      [{ index := (sg.lastIndex + 1) % uint64Size, f := f }] } }
          item := { index := (sg.lastIndex + 1) % uint64Size, f := f }
          err := CallStatus.returnedNil } := by
      unfold AddWork
      simp [Bloque.Push, Bloque.full, hcap, hopen]
    obtain ⟨h1, h2⟩ := ih (AddWork false f sg).sg (by rw [hpush]; exact hcap)
      (by rw [hpush]; exact hopen)
    simp only [List.map_cons, AddWorkCalls]
    refine ⟨?_, ?_⟩
    · rw [h1]
      simp [hpush]
    · intro r hr
      rcases List.mem_cons.mp hr with hr | hr
      · rw [hr, hpush]
      · exact h2 r hr

theorem results_not_nil {R : Type} [GoResult R] (fs : List (Unit → R))
    (expected : List (workItemResult R))
    (hres : expected.map (fun b => b.result) = fs.map (fun f => f ()))
    (hnil : ∀ f ∈ fs, GoResult.nilInterface (f ()) = false) :
    ∀ x ∈ expected, GoResult.nilInterface x.result = false := by
  intro x hx
  have hmem : x.result ∈ fs.map (fun f => f ()) := by
    rw [← hres]
    exact List.mem_map.mpr ⟨x, hx, rfl⟩
  obtain ⟨f, hf, hfx⟩ := List.mem_map.mp hmem
  rw [← hfx]
  exact hnil f hf

/-- Order preservation when no result is stored as the nil interface value (always so for a
concrete result type): for every list `fs` of fewer than `2 ^ 64` computations handed to
`AddWork` one after the other on a new gatherer, and for every order `arrivals` in which the
workers hand the results of the work items so built to `gatherWork`, the reorder stage
receives them all, the values it pushes to the output queue are the results of `fs` in
admission order, and once the output queue is closed the relay ends and the consumer has
read exactly these values, in this order, from `OutputChannel()`. -/
theorem order_preserved {R : Type} [GoResult R]
    (workers maxInputBacklog maxOutputBacklog : Nat)
    (fs : List (Unit → R)) (arrivals : List (workItemResult R))
    (hN : fs.length < uint64Size)
    (hnil : ∀ f ∈ fs, GoResult.nilInterface (f ()) = false)
    (hperm : arrivals.Perm
      ((AddWorkCalls (fs.map (fun f => (false, f)))
        (NewOrderedScatterGather workers maxInputBacklog maxOutputBacklog)).2.map
          (fun r => doWork r.item))) :
    ∃ sg1 sg2,
      gatherWork false arrivals
        (AddWorkCalls (fs.map (fun f => (false, f)))
          (NewOrderedScatterGather workers maxInputBacklog maxOutputBacklog)).1 = some sg1 ∧
      sg1.released.map (fun b => b.index) = List.range' 1 fs.length ∧
      emitted sg1 = fs.map (fun f => f ()) ∧
      relayResults false (sg1.outputQueue.items.length + 1)
        { sg1 with outputQueue := sg1.outputQueue.Close } = Outcome.ok sg2 ∧
      OutputChannel sg2 = fs.map (fun f => f ()) := by
  obtain ⟨g1, g2, g3, g4, g5⟩ := AddWorkCalls_gather (fs.map (fun f => (false, f)))
    (NewOrderedScatterGather workers maxInputBacklog maxOutputBacklog : OrderedScatterGatherer R)
  obtain ⟨d1, d2, d3⟩ := AddWorkCalls_doWork fs
    (NewOrderedScatterGather workers maxInputBacklog maxOutputBacklog : OrderedScatterGatherer R)
    rfl hN
  have hfresh : gatherFresh (AddWorkCalls (fs.map (fun f => (false, f)))
      (NewOrderedScatterGather workers maxInputBacklog maxOutputBacklog)).1 := by
    refine ⟨?_, ?_, ?_⟩
    · rw [g3]; rfl
    · rw [g4]; rfl
    · rw [g5]; rfl
  obtain ⟨sg1, r1, r2, r3, r4, _, _, _, r9⟩ := gatherWork_sorted _ arrivals _ hfresh
    (by rw [g1]; rfl)
    (by rw [g1]; intro v hv; exact absurd hv (List.not_mem_nil v))
    (results_not_nil fs _ d3 hnil)
    (by rw [d1, d2]) (by rw [d2]; exact hN) hperm
  have hem : emitted sg1 = fs.map (fun f => f ()) := by
    rw [r3, d3]
    simp only [emitted, g1, g2]
    rfl
  obtain ⟨sg2, q1, q2, _⟩ := relayResults_closed (sg1.outputQueue.items.length + 1)
    { sg1 with outputQueue := sg1.outputQueue.Close } rfl r9 (Nat.lt_succ_self _)
  refine ⟨sg1, sg2, r1, ?_, hem, q1, ?_⟩
  · rw [r2, d1]
  · rw [OutputChannel, q2]
    exact hem

/-- An instance of `order_preserved`: three `int` computations whose results arrive in the
order 2, 3, 1, with an output queue of capacity 1. -/
theorem order_preserved_witness :
    ∃ sg1 sg2,
      gatherWork false [⟨2, 20⟩, ⟨3, 30⟩, ⟨1, 10⟩]
        (AddWorkCalls ([fun _ => 10, fun _ => 20, fun _ => 30].map (fun f => (false, f)))
          (NewOrderedScatterGather 4 0 1 : OrderedScatterGatherer Nat)).1 = some sg1 ∧
      sg1.released.map (fun b => b.index) = List.range' 1 3 ∧
      emitted sg1 = [10, 20, 30] ∧
      relayResults false (sg1.outputQueue.items.length + 1)
        { sg1 with outputQueue := sg1.outputQueue.Close } = Outcome.ok sg2 ∧
      OutputChannel sg2 = [10, 20, 30] :=
  order_preserved 4 0 1 [fun _ => 10, fun _ => 20, fun _ => 30]
    [⟨2, 20⟩, ⟨3, 30⟩, ⟨1, 10⟩] (by decide) (by decide) (by decide)

/-- Shutdown when nothing went wrong: fewer than `2 ^ 64` computations, none with a result
that is stored as the nil interface value, are handed to `AddWork` on a new gatherer with an
unbounded input queue; every call returns `nil`; then `Drain` runs, the workers finishing in
any order. `Drain` returns, the consumer has read the results in admission order, and the
reorder buffer is empty. -/
theorem Drain_delivers_all {R : Type} [GoResult R] (workers maxOutputBacklog : Nat)
    (fs : List (Unit → R)) (completion : List (workItemResult R) → List (workItemResult R))
    (hN : fs.length < uint64Size)
    (hnil : ∀ f ∈ fs, GoResult.nilInterface (f ()) = false)
    (hcompletion : ∀ l, (completion l).Perm l) :
    (∀ r ∈ (AddWorkCalls (fs.map (fun f => (false, f)))
        (NewOrderedScatterGather workers 0 maxOutputBacklog)).2,
      r.err = CallStatus.returnedNil) ∧
    ∃ sg2, Drain completion (AddWorkCalls (fs.map (fun f => (false, f)))
        (NewOrderedScatterGather workers 0 maxOutputBacklog)).1 = Outcome.ok sg2 ∧
      OutputChannel sg2 = fs.map (fun f => f ()) ∧ sg2.bufferedItems = [] := by
  obtain ⟨w1, w2⟩ := AddWorkCalls_queue fs
    (NewOrderedScatterGather workers 0 maxOutputBacklog : OrderedScatterGatherer R) rfl rfl
  refine ⟨w2, ?_⟩
  obtain ⟨g1, g2, g3, g4, g5⟩ := AddWorkCalls_gather (fs.map (fun f => (false, f)))
    (NewOrderedScatterGather workers 0 maxOutputBacklog : OrderedScatterGatherer R)
  obtain ⟨d1, d2, d3⟩ := AddWorkCalls_doWork fs
    (NewOrderedScatterGather workers 0 maxOutputBacklog : OrderedScatterGatherer R) rfl hN
  obtain ⟨sgP, p1, p2, p3, p4, p5, p6, _⟩ := pickWork_closed
    ((AddWorkCalls (fs.map (fun f => (false, f)))
      (NewOrderedScatterGather workers 0 maxOutputBacklog)).1.workQueue.items.length + 1)
    { (AddWorkCalls (fs.map (fun f => (false, f)))
        (NewOrderedScatterGather workers 0 maxOutputBacklog)).1 with
      workQueue := (AddWorkCalls (fs.map (fun f => (false, f)))
        (NewOrderedScatterGather workers 0 maxOutputBacklog : OrderedScatterGatherer R)
        ).1.workQueue.Close }
    rfl (Nat.lt_succ_self _)
  have hitems : (AddWorkCalls (fs.map (fun f => (false, f)))
      (NewOrderedScatterGather workers 0 maxOutputBacklog : OrderedScatterGatherer R)
      ).1.workQueue.items =
      (AddWorkCalls (fs.map (fun f => (false, f)))
        (NewOrderedScatterGather workers 0 maxOutputBacklog)).2.map (fun r => r.item) := by
    rw [w1]
    rfl
  have hfresh : gatherFresh sgP := by
    refine ⟨?_, ?_, ?_⟩
    · rw [p4]; exact g3
    · rw [p5]; exact g4
    · rw [p6]; exact g5
  have hperm : (completion ((AddWorkCalls (fs.map (fun f => (false, f)))
      (NewOrderedScatterGather workers 0 maxOutputBacklog : OrderedScatterGatherer R)
      ).1.workQueue.items.map doWork)).Perm
      ((AddWorkCalls (fs.map (fun f => (false, f)))
        (NewOrderedScatterGather workers 0 maxOutputBacklog)).2.map
          (fun r => doWork r.item)) := by
    rw [hitems, List.map_map]
    exact hcompletion _
  have hq0 : sgP.outputQueue =
      (NewOrderedScatterGather workers 0 maxOutputBacklog : OrderedScatterGatherer R
        ).outputQueue := p2.trans g1
  obtain ⟨sg1, r1, _, r3, _, _, _, r8, r9⟩ := gatherWork_sorted sgP _ _ hfresh
    (by rw [hq0]; rfl)
    (by rw [hq0]; intro v hv; exact absurd hv (List.not_mem_nil v))
    (results_not_nil fs _ d3 hnil)
    (by rw [d1, d2]) (by rw [d2]; exact hN) hperm
  have hem : emitted sg1 = fs.map (fun f => f ()) := by
    rw [r3, d3]
    simp only [emitted, p2, p3, g1, g2]
    rfl
  obtain ⟨sg2, q1, q2, _, q4, _⟩ := relayResults_closed (sg1.outputQueue.items.length + 1)
    { sg1 with outputQueue := sg1.outputQueue.Close } rfl r9 (Nat.lt_succ_self _)
  refine ⟨sg2, ?_, ?_, ?_⟩
  · unfold Drain
    simp only [Bloque.Close] at p1 q1 ⊢
    rw [p1]
    simp only
    rw [r1]
    exact q1
  · rw [OutputChannel, q2]
    exact hem
  · rw [q4]
    exact r8

/-! ## The claims -/

/-- Evaluation for claim C1 (order preservation) at a result type that is an interface: on a
gatherer for `error` results, one call to `AddWork` returns `nil` for a computation that
returns `nil`; its result reaches the output queue; when the relay takes it from there, the
type assertion `result.(R)` panics, and the consumer has read nothing. `Drain` ends in the
same panic. The claim says the consumer reads the result. -/
theorem relay_panics_on_nil_result :
    nilErrorCall.err = CallStatus.returnedNil ∧
      nilErrorCall.item.index = 1 ∧ nilErrorCall.item.f () = GoError.nil ∧
      nilErrorQueued.map (fun sg => (sg.released, sg.outputQueue.items)) =
        some ([⟨1, GoError.nil⟩], [GoError.nil]) ∧
      nilErrorRelayed = some (true, []) ∧
      (Drain id nilErrorCall.sg).map OutputChannel = Outcome.panic := by
  decide

/-- Evaluation for claim C2 (no loss, no duplication) at a history with a failed call: the
first and third call to `AddWork` return `nil` and their computations produce 10 and 30, the
second call returns an error; `Drain` returns, and the consumer has read 10 only. The value 30
of the admitted third computation is lost. -/
theorem drain_loses_result_after_gap :
    gapCall1.err = CallStatus.returnedNil ∧ gapCall2.err = CallStatus.returnedErr ∧
      gapCall3.map (fun r => r.err) = some CallStatus.returnedNil ∧
      gapCall3.map (fun r => r.item.index) = some 3 ∧
      gapDrained.map OutputChannel = Outcome.ok [10] := by
  decide

/-- Claim C3 (ascending release): on a gatherer whose reorder stage has received nothing yet,
for arrivals with pairwise different sequence numbers that are at least 1 (and `uint64`
values), after each receive step the sequence numbers released to the output queue are
`1, 2, ..., awaitingIndex - 1` in this order (the subtraction is that of `uint64`), every
released item is one of the arrivals received so far, and the values pushed are the results
of the released items, in the same order. This holds whether pushes succeed or fail. -/
theorem ascending_release {R : Type} [GoResult R] (ctxDone : Bool)
    (sg : OrderedScatterGatherer R)
    (arrivals : List (workItemResult R)) (m : Nat) (hfresh : gatherFresh sg)
    (hdistinct : (arrivals.map (fun a => a.index)).Nodup)
    (hrange : ∀ a ∈ arrivals, 1 ≤ a.index ∧ a.index < uint64Size) :
    ∃ sg1, gatherWork ctxDone (arrivals.take m) sg = some sg1 ∧
      sg1.released.map (fun b => b.index) =
        List.range' 1 ((sg1.awaitingIndex + uint64Size - 1) % uint64Size) ∧
      (∀ b ∈ sg1.released, b ∈ arrivals.take m) ∧
      emitted sg1 = emitted sg ++ sg1.released.map (fun b => b.result) := by
  have hnd : ((([] : List (workItemResult R)) ++ arrivals.take m).map
      (fun a => a.index)).Nodup := by
    simpa using hdistinct.sublist ((List.take_sublist m arrivals).map _)
  obtain ⟨sg1, r1, r2, _⟩ := gatherWork_inv ctxDone (emitted sg) (arrivals.take m) [] sg
    (gatherInv_fresh sg hfresh) hnd
    (fun a ha => (hrange a (List.mem_of_mem_take ha)).1)
  simp only [List.nil_append] at r2
  refine ⟨sg1, r1, ?_, r2.released_mem, r2.output⟩
  have hlt : sg1.released.length < uint64Size := by
    by_contra hge
    have hi : sg1.released.length ∈ sg1.released.map (fun b => b.index) := by
      rw [r2.released_index, List.mem_range']
      refine ⟨sg1.released.length - 1, ?_, ?_⟩
      · have : 0 < uint64Size := by decide
        omega
      · have : 0 < uint64Size := by decide
        omega
    obtain ⟨x, hx, hxi⟩ := List.mem_map.mp hi
    have := (hrange x (List.mem_of_mem_take (r2.released_mem x hx))).2
    omega
  have hn : (sg1.awaitingIndex + uint64Size - 1) % uint64Size = sg1.released.length := by
    rw [r2.awaiting]
    simp only [uint64Size] at hlt ⊢
    omega
  rw [hn]
  exact r2.released_index

/-- Witness for claim C3: results 2, 3, 1 arrive at a new gatherer. -/
theorem ascending_release_witness :
    gatherFresh (NewOrderedScatterGather 4 0 0 : OrderedScatterGatherer Nat) ∧
      (([⟨2, 20⟩, ⟨3, 30⟩, ⟨1, 10⟩] : List (workItemResult Nat)).map (fun a => a.index)).Nodup ∧
      ∃ sg1, gatherWork false (([⟨2, 20⟩, ⟨3, 30⟩, ⟨1, 10⟩] : List (workItemResult Nat)).take 3)
          (NewOrderedScatterGather 4 0 0) = some sg1 ∧
        sg1.released.map (fun b => b.index) =
          List.range' 1 ((sg1.awaitingIndex + uint64Size - 1) % uint64Size) ∧
        (∀ b ∈ sg1.released,
          b ∈ ([⟨2, 20⟩, ⟨3, 30⟩, ⟨1, 10⟩] : List (workItemResult Nat)).take 3) ∧
        emitted sg1 = emitted (NewOrderedScatterGather 4 0 0 : OrderedScatterGatherer Nat) ++
          sg1.released.map (fun b => b.result) :=
  ⟨⟨rfl, rfl, rfl⟩, by decide,
    ascending_release false (NewOrderedScatterGather 4 0 0) [⟨2, 20⟩, ⟨3, 30⟩, ⟨1, 10⟩] 3
      ⟨rfl, rfl, rfl⟩ (by decide) (by decide)⟩

/-- Claim C4 (reorder-buffer invariant): on a gatherer whose reorder stage has received
nothing yet, for arrivals with pairwise different sequence numbers that are at least 1,
after every receive step (and before the first) every key of `bufferedItems` is at least
`awaitingIndex`. This holds whether pushes succeed or fail. -/
theorem reorder_buffer_keys {R : Type} [GoResult R] (ctxDone : Bool)
    (sg : OrderedScatterGatherer R)
    (arrivals : List (workItemResult R)) (m : Nat) (hfresh : gatherFresh sg)
    (hdistinct : (arrivals.map (fun a => a.index)).Nodup)
    (hpos : ∀ a ∈ arrivals, 1 ≤ a.index) :
    ∃ sg1, gatherWork ctxDone (arrivals.take m) sg = some sg1 ∧
      ∀ e ∈ sg1.bufferedItems, sg1.awaitingIndex ≤ e.1 := by
  have hnd : ((([] : List (workItemResult R)) ++ arrivals.take m).map
      (fun a => a.index)).Nodup := by
    simpa using hdistinct.sublist ((List.take_sublist m arrivals).map _)
  obtain ⟨sg1, r1, r2, _⟩ := gatherWork_inv ctxDone (emitted sg) (arrivals.take m) [] sg
    (gatherInv_fresh sg hfresh) hnd (fun a ha => hpos a (List.mem_of_mem_take ha))
  refine ⟨sg1, r1, ?_⟩
  intro e he
  obtain ⟨v, hv⟩ := mapGet_of_mem sg1.bufferedItems e he
  have h1 := (r2.buffered e.1 v hv).2.2
  have h2 := r2.awaiting
  have h3 := mod_uint64_le (sg1.released.length + 1)
  omega

/-- Witness for claim C4: results 3, 4, 1 arrive at a new gatherer; 3 and 4 stay buffered
while 2 is awaited. -/
theorem reorder_buffer_keys_witness :
    gatherFresh (NewOrderedScatterGather 4 0 0 : OrderedScatterGatherer Nat) ∧
      (([⟨3, 30⟩, ⟨4, 40⟩, ⟨1, 10⟩] : List (workItemResult Nat)).map (fun a => a.index)).Nodup ∧
      ∃ sg1, gatherWork false (([⟨3, 30⟩, ⟨4, 40⟩, ⟨1, 10⟩] : List (workItemResult Nat)).take 3)
          (NewOrderedScatterGather 4 0 0) = some sg1 ∧
        ∀ e ∈ sg1.bufferedItems, sg1.awaitingIndex ≤ e.1 :=
  ⟨⟨rfl, rfl, rfl⟩, by decide,
    reorder_buffer_keys false (NewOrderedScatterGather 4 0 0) [⟨3, 30⟩, ⟨4, 40⟩, ⟨1, 10⟩] 3
      ⟨rfl, rfl, rfl⟩ (by decide) (by decide)⟩

/-- Claim C5 (sequence assignment): on a new gatherer, for every run of calls to `AddWork`
(whatever their cancellation flags and the capacity of the input queue, so whether or not
the pushes succeed) and every `k` with `1 ≤ k < 2 ^ 64`, the `k`-th call builds a work item
whose index is `k`. -/
theorem sequence_assignment {R : Type} (workers maxInputBacklog maxOutputBacklog : Nat)
    (calls : List (Bool × (Unit → R))) (k : Nat) (h1 : 1 ≤ k) (h2 : k < uint64Size)
    (h3 : k ≤ calls.length) :
    ((AddWorkCalls calls
      (NewOrderedScatterGather workers maxInputBacklog maxOutputBacklog)).2[k - 1]?).map
        (fun r => r.item.index) = some k := by
  have h := AddWorkCalls_index calls
    (NewOrderedScatterGather workers maxInputBacklog maxOutputBacklog : OrderedScatterGatherer R)
    0 rfl
  have hk := congrArg (fun l => l[k - 1]?) h
  simp only [List.getElem?_map, Nat.zero_add] at hk
  rw [hk, List.getElem?_range' 1 1 (by omega)]
  simp only [Option.map_some', Nat.one_mul, Option.some.injEq]
  rw [Nat.mod_eq_of_lt (by omega)]
  omega

/-- Witness for claim C5: the second of three calls, whose context is cancelled, on an input
queue of capacity 1. -/
theorem sequence_assignment_witness :
    1 ≤ 2 ∧ 2 < uint64Size ∧
      ((AddWorkCalls [(false, fun _ => 10), (true, fun _ => 20), (false, fun _ => 30)]
        (NewOrderedScatterGather 4 1 0 : OrderedScatterGatherer Nat)).2[2 - 1]?).map
          (fun r => r.item.index) = some 2 :=
  ⟨by decide, by decide,
    sequence_assignment 4 1 0 [(false, fun _ => 10), (true, fun _ => 20), (false, fun _ => 30)]
      2 (by decide) (by decide) (by decide)⟩

/-- Claim C6 (admission after shutdown is rejected): when the input queue is closed, as it
is from the first statement of `Drain` on, `AddWork` returns an error for every computation
and every context, and leaves the gatherer as it was but for the sequence counter: the work
item is not in the input queue, and `pickWork` hands the workers the same items as it would
without the call, so the computation is never run. -/
theorem addWork_after_close {R : Type} (ctxDone : Bool) (f : Unit → R)
    (sg : OrderedScatterGatherer R) (hclosed : sg.workQueue.closed = true) :
    (AddWork ctxDone f sg).err = CallStatus.returnedErr ∧
      (AddWork ctxDone f sg).sg = { sg with lastIndex := (sg.lastIndex + 1) % uint64Size } ∧
      (AddWork ctxDone f sg).sg.workQueue.items = sg.workQueue.items ∧
      ∀ ctx fuel, (pickWork ctx fuel (AddWork ctxDone f sg).sg).map (fun out => out.1) =
        (pickWork ctx fuel sg).map (fun out => out.1) := by
  have hsg : (AddWork ctxDone f sg).sg =
      { sg with lastIndex := (sg.lastIndex + 1) % uint64Size } := by
    unfold AddWork
    simp [Bloque.Push, hclosed]
  refine ⟨?_, hsg, ?_, ?_⟩
  · unfold AddWork
    simp [Bloque.Push, hclosed]
  · rw [hsg]
  · intro ctx fuel
    rw [hsg]
    exact pickWork_lastIndex ctx _ fuel sg

/-- Witness for claim C6: a call to `AddWork` on a gatherer whose input queue `Drain` has
closed. -/
theorem addWork_after_close_witness :
    ({ (NewOrderedScatterGather 4 0 0 : OrderedScatterGatherer Nat) with
        workQueue := (NewOrderedScatterGather 4 0 0 : OrderedScatterGatherer Nat).workQueue.Close
      }).workQueue.closed = true ∧
    (AddWork false (fun _ => 10)
      { (NewOrderedScatterGather 4 0 0 : OrderedScatterGatherer Nat) with
        workQueue := (NewOrderedScatterGather 4 0 0 : OrderedScatterGatherer Nat).workQueue.Close
      }).err = CallStatus.returnedErr :=
  ⟨rfl, (addWork_after_close false (fun _ => 10)
    { (NewOrderedScatterGather 4 0 0 : OrderedScatterGatherer Nat) with
      workQueue := (NewOrderedScatterGather 4 0 0 : OrderedScatterGatherer Nat).workQueue.Close }
    rfl).1⟩

/-- Claim C7 (a sequence gap stalls the reorder stage): on a gatherer whose reorder stage
has received nothing yet, for every `k ≥ 1` and all arrivals none of which carries sequence
number `k`, after every receive step `awaitingIndex` is at most `k`, every released item has
a sequence number below `k` (and the values pushed are the results of the released items),
and every arrival with a sequence number above `k` still has its entry in `bufferedItems`:
the entry holds the arrival itself unless a later arrival came with the same sequence
number. -/
theorem sequence_gap_stalls {R : Type} [GoResult R] (ctxDone : Bool)
    (sg : OrderedScatterGatherer R)
    (arrivals : List (workItemResult R)) (k m : Nat) (hk : 1 ≤ k) (hfresh : gatherFresh sg)
    (hgap : ∀ a ∈ arrivals, a.index ≠ k) :
    ∃ sg1, gatherWork ctxDone (arrivals.take m) sg = some sg1 ∧
      sg1.awaitingIndex ≤ k ∧ (∀ b ∈ sg1.released, b.index < k) ∧
      emitted sg1 = emitted sg ++ sg1.released.map (fun b => b.result) ∧
      (∀ a ∈ arrivals.take m, k < a.index →
        ∃ v, mapGet sg1.bufferedItems a.index = some v ∧ v.index = a.index) ∧
      (∀ before a after, arrivals.take m = before ++ a :: after → k < a.index →
        (∀ b ∈ after, b.index ≠ a.index) → mapGet sg1.bufferedItems a.index = some a) := by
  have hgap2 : ∀ a ∈ arrivals.take m, a.index ≠ k :=
    fun a ha => hgap a (List.mem_of_mem_take ha)
  obtain ⟨sg1, r1, r2, _, _, r5⟩ := gatherWork_stall ctxDone (emitted sg) k (arrivals.take m) sg
    (stallInv_fresh sg k hk hfresh) hgap2
  refine ⟨sg1, r1, r2.awaiting, r2.released_lt, r2.output, ?_, ?_⟩
  · intro a ha hak
    have hsome := r5 a ha hak
    cases hv : mapGet sg1.bufferedItems a.index with
    | none => rw [hv] at hsome; simp at hsome
    | some v => exact ⟨v, rfl, r2.keyed _ _ hv⟩
  · intro before a after hsplit hak hlater
    rw [hsplit] at hgap2 r1
    obtain ⟨sgB, b1, b2, _⟩ := gatherWork_stall ctxDone (emitted sg) k before sg
      (stallInv_fresh sg k hk hfresh)
      (fun x hx => hgap2 x (List.mem_append_left _ hx))
    obtain ⟨sgA, a1, a2, a3⟩ := gatherReceive_stall ctxDone (emitted sg) k sgB a b2
      (hgap2 a (List.mem_append_right _ (List.mem_cons_self _ _)))
    obtain ⟨sgC, c1, _, c3, _⟩ := gatherWork_stall ctxDone (emitted sg) k after sgA a2
      (fun x hx => hgap2 x (List.mem_append_right _ (List.mem_cons_of_mem _ hx)))
    have hrun : gatherWork ctxDone (before ++ a :: after) sg = some sgC := by
      rw [gatherWork_append, b1]
      simp [gatherWork, a1, c1]
    rw [hrun] at r1
    simp only [Option.some.injEq] at r1
    subst r1
    rw [c3 a.index hak hlater, a3 a.index hak]
    simp

/-- Witness for claim C7: sequence number 2 never arrives; 1 is released, 3 and 4 stay
buffered. -/
theorem sequence_gap_stalls_witness :
    1 ≤ 2 ∧ gatherFresh (NewOrderedScatterGather 4 0 0 : OrderedScatterGatherer Nat) ∧
      ∃ sg1, gatherWork false (([⟨3, 30⟩, ⟨1, 10⟩, ⟨4, 40⟩] : List (workItemResult Nat)).take 3)
          (NewOrderedScatterGather 4 0 0) = some sg1 ∧
        sg1.awaitingIndex ≤ 2 ∧ (∀ b ∈ sg1.released, b.index < 2) ∧
        emitted sg1 = emitted (NewOrderedScatterGather 4 0 0 : OrderedScatterGatherer Nat) ++
          sg1.released.map (fun b => b.result) ∧
        (∀ a ∈ ([⟨3, 30⟩, ⟨1, 10⟩, ⟨4, 40⟩] : List (workItemResult Nat)).take 3, 2 < a.index →
          ∃ v, mapGet sg1.bufferedItems a.index = some v ∧ v.index = a.index) ∧
        (∀ before a after,
          ([⟨3, 30⟩, ⟨1, 10⟩, ⟨4, 40⟩] : List (workItemResult Nat)).take 3 =
            before ++ a :: after → 2 < a.index →
          (∀ b ∈ after, b.index ≠ a.index) → mapGet sg1.bufferedItems a.index = some a) :=
  ⟨by decide, ⟨rfl, rfl, rfl⟩,
    sequence_gap_stalls false (NewOrderedScatterGather 4 0 0) [⟨3, 30⟩, ⟨1, 10⟩, ⟨4, 40⟩] 2 3
      (by decide) ⟨rfl, rfl, rfl⟩ (by decide)⟩

/-- Evaluation for claim C8 (drain completeness) at the history of `gapDrained`: the third
call to `AddWork` returned `nil` for a computation producing 30, and `Drain` returns in a
state where the consumer has read 10 only and the result with sequence number 3 is still in
`bufferedItems`, behind the sequence number 2 that the failed second call spent. -/
theorem drain_returns_with_undelivered_result :
    gapCall3.map (fun r => (r.err, r.item.index, r.item.f ())) =
        some (CallStatus.returnedNil, 3, 30) ∧
      gapDrained.map (fun sg => (OutputChannel sg, sg.awaitingIndex,
        mapGet sg.bufferedItems 3, sg.outputQueue.items)) =
        Outcome.ok ([10], 2, some ⟨3, 30⟩, []) := by
  decide

/-- Claim C9 (input backpressure): the constructor gives the input queue the capacity
`maxInputBacklog = K`; for `K ≥ 1`, on a gatherer whose input queue has capacity `K` and holds
`K` items, no call to `AddWork` returns `nil` or changes the input queue; while the queue is
open the call blocks if its context is live and returns an error if its context is
cancelled; and once `pickWork` has popped an item a call with a live context returns `nil`. -/
theorem input_backpressure {R : Type} (workers K maxOutputBacklog : Nat) (f : Unit → R)
    (sg : OrderedScatterGatherer R) (hK : 1 ≤ K) (hcap : sg.workQueue.capacity = K)
    (hfull : sg.workQueue.items.length = K) :
    (NewOrderedScatterGather workers K maxOutputBacklog :
        OrderedScatterGatherer R).workQueue.capacity = K ∧
      (∀ ctxDone, (AddWork ctxDone f sg).err ≠ CallStatus.returnedNil ∧
        (AddWork ctxDone f sg).sg.workQueue = sg.workQueue) ∧
      (sg.workQueue.closed = false →
        (AddWork false f sg).err = CallStatus.blocked ∧
        (AddWork true f sg).err = CallStatus.returnedErr ∧
        ∃ item sg1, pickWorkStep false sg = some (item, sg1) ∧
          (AddWork false f sg1).err = CallStatus.returnedNil) := by
  have hfullq : sg.workQueue.full = true := by
    simp only [Bloque.full, Bool.and_eq_true, bne_iff_ne, ne_eq, decide_eq_true_eq]
    omega
  refine ⟨rfl, ?_, ?_⟩
  · intro ctxDone
    unfold AddWork
    simp only [Bloque.Push, hfullq]
    split_ifs <;> simp
  · intro hopen
    refine ⟨?_, ?_, ?_⟩
    · unfold AddWork
      simp [Bloque.Push, hfullq, hopen]
    · unfold AddWork
      simp [Bloque.Push, hopen]
    · cases hitems : sg.workQueue.items with
      | nil =>
        rw [hitems] at hfull
        simp only [List.length_nil] at hfull
        omega
      | cons item rest =>
        refine ⟨item, { sg with workQueue := { sg.workQueue with items := rest } }, ?_, ?_⟩
        · simp [pickWorkStep, Bloque.Pop, hitems]
        · have hlen : rest.length + 1 = K := by
            rw [hitems] at hfull
            simpa using hfull
          have hnot : ¬ (sg.workQueue.capacity ≤ rest.length) := by omega
          unfold AddWork
          simp [Bloque.Push, Bloque.full, hopen, hnot]

/-- Witness for claim C9: a gatherer with `maxInputBacklog = 1` after one admitted call. -/
theorem input_backpressure_witness :
    1 ≤ 1 ∧ gapCall1.sg.workQueue.capacity = 1 ∧ gapCall1.sg.workQueue.items.length = 1 ∧
      (gapCall1.sg.workQueue.closed = false →
        (AddWork false (fun _ => 20) gapCall1.sg).err = CallStatus.blocked ∧
        (AddWork true (fun _ => 20) gapCall1.sg).err = CallStatus.returnedErr ∧
        ∃ item sg1, pickWorkStep false gapCall1.sg = some (item, sg1) ∧
          (AddWork false (fun _ => 20) sg1).err = CallStatus.returnedNil) :=
  ⟨by decide, by decide, by decide,
    (input_backpressure 1 1 0 (fun _ => 20) gapCall1.sg (by decide) (by decide) (by decide)).2.2⟩

/-- Claim C10 (a failed output push loses nothing and skips nothing): in every state of the
inner loop of `gatherWork` in which `bufferedItems[awaitingIndex]` is present and the push of
its result to the output queue returns an error, the loop ends in that very state: the entry
is still in `bufferedItems`, `awaitingIndex` is the same, and nothing was emitted. So when
that state is the one right after a received result was put in the map, the receive step
ends in it. -/
theorem failed_push_keeps_state {R : Type} [GoResult R] (ctxDone : Bool) (fuel : Nat)
    (sg : OrderedScatterGatherer R) (bufferedItem : workItemResult R)
    (hget : mapGet sg.bufferedItems sg.awaitingIndex = some bufferedItem)
    (herr : sg.outputQueue.Push ctxDone bufferedItem.result = PushResult.failed) :
    releaseLoop ctxDone (fuel + 1) sg = some sg ∧
      ∀ (sg0 : OrderedScatterGatherer R) (result : workItemResult R),
        sg = { sg0 with bufferedItems := mapSet sg0.bufferedItems result.index result } →
        gatherReceive ctxDone sg0 result = some sg := by
  have hloop : ∀ n, releaseLoop ctxDone (n + 1) sg = some sg := by
    intro n
    unfold releaseLoop
    simp only [hget, pushOutput_none ctxDone sg bufferedItem.result herr]
  refine ⟨hloop fuel, ?_⟩
  intro sg0 result hsg
  unfold gatherReceive
  simp only [← hsg]
  exact hloop _

/-- Witness for claim C10: the result with sequence number 1 has been put in the map and the
output queue is closed. -/
theorem failed_push_keeps_state_witness :
    mapGet ({ (NewOrderedScatterGather 4 0 0 : OrderedScatterGatherer Nat) with
        outputQueue := (Bloque.New 0).Close
        bufferedItems := mapSet [] 1 ⟨1, 10⟩ }).bufferedItems 1 = some ⟨1, 10⟩ ∧
      (Bloque.New 0 : Bloque Nat).Close.Push false 10 = PushResult.failed ∧
      releaseLoop false (0 + 1)
        { (NewOrderedScatterGather 4 0 0 : OrderedScatterGatherer Nat) with
          outputQueue := (Bloque.New 0).Close
          bufferedItems := mapSet [] 1 ⟨1, 10⟩ } =
        some { (NewOrderedScatterGather 4 0 0 : OrderedScatterGatherer Nat) with
          outputQueue := (Bloque.New 0).Close
          bufferedItems := mapSet [] 1 ⟨1, 10⟩ } :=
  ⟨by decide, by decide,
    (failed_push_keeps_state false 0
      { (NewOrderedScatterGather 4 0 0 : OrderedScatterGatherer Nat) with
        outputQueue := (Bloque.New 0).Close
        bufferedItems := mapSet [] 1 ⟨1, 10⟩ }
      ⟨1, 10⟩ (by decide) (by decide)).1⟩

end OrderedScatterGather
